import Mathlib

/-!
Verification of the gostockfish repository: a shallow embedding of its
UCI-output parsers (ParseInfo, ParseBestMove), the match orchestration
(Match.Move, Match.Run) and the engine-parameter construction of
NewEngineWithAllOptions, together with theorems settling the frozen claims.

Strings are modelled as lists of characters; the Go regexp scans of
ParseInfo are embedded as explicit leftmost-first scanners that mirror the
concrete patterns used by the source (these specific patterns never need
regex backtracking, so a direct greedy scan is exact).
-/

namespace Gostockfish

/-- Outcome of a Go function call: a normal value, a returned non-nil
error, or a runtime panic. -/
inductive GoResult (α : Type) where
  | ok : α → GoResult α
  | err : String → GoResult α
  | panic : String → GoResult α
deriving DecidableEq, Repr

/-! ## Character classes used by the regular expressions of the source -/

/-- Decimal digit, the regex class d. -/
def isDigitC (c : Char) : Bool := '0' ≤ c && c ≤ '9'

/-- Word character, the regex class w, which is ASCII [0-9A-Za-z_] in Go. -/
def isWordC (c : Char) : Bool :=
  ('a' ≤ c && c ≤ 'z') || ('A' ≤ c && c ≤ 'Z') || ('0' ≤ c && c ≤ '9') || c = '_'

/-- File letter of a UCI move, the class [a-h]. -/
def isFileC (c : Char) : Bool := 'a' ≤ c && c ≤ 'h'

/-- Promotion piece letter of a UCI move, the class [qrnb]. -/
def isPromoC (c : Char) : Bool := c = 'q' || c = 'r' || c = 'n' || c = 'b'

/-- Non-space character, the regex class [^ ]. -/
def nonSpace (c : Char) : Bool := c ≠ ' '

/-! ## List-of-characters utilities -/

/-- Removes the given leading pattern from a list, if present. -/
def dropStart (pat : List Char) (s : List Char) : Option (List Char) :=
  match pat, s with
  | [], s => some s
  | _ :: _, [] => none
  | p :: pat', c :: s' => if p = c then dropStart pat' s' else none

/-- Boolean suffix test: the first list is a contiguous suffix of the second. -/
def sfx (k : List Char) : List Char → Bool
  | [] => k == []
  | c :: t => k == c :: t || sfx k t

/-- Splits a list at every space character, keeping empty pieces, exactly as
the Go function strings.Split with a single-space separator. -/
def splitSp : List Char → List (List Char)
  | [] => [[]]
  | c :: r =>
    if c = ' ' then [] :: splitSp r
    else
      match splitSp r with
      | t :: ts => (c :: t) :: ts
      | [] => [[c]]

/-- Joins a list of tokens with single spaces, as strings.Join does. -/
def joinTok : List (List Char) → List Char
  | [] => []
  | [t] => t
  | t :: u :: ts => t ++ ' ' :: joinTok (u :: ts)

/-! ## strconv.Atoi -/

/-- Numeric value of a list of decimal digits. -/
def digitsVal (ds : List Char) : Nat := ds.foldl (fun a c => a * 10 + (c.toNat - 48)) 0

/-- Embedding of strconv.Atoi for 64-bit Go int: optional sign, decimal
digits, with the int64 range check. -/
def goAtoi (s : List Char) : Except String Int :=
  match s with
  | [] => .error "strconv.Atoi: parsing \x22\x22: invalid syntax"
  | c :: ds =>
    if c = '-' then
      if ds ≠ [] ∧ ds.all isDigitC = true then
        if digitsVal ds ≤ 2 ^ 63 then .ok (-(digitsVal ds : Int))
        else .error "strconv.Atoi: value out of range"
      else .error "strconv.Atoi: invalid syntax"
    else if c = '+' then
      if ds ≠ [] ∧ ds.all isDigitC = true then
        if digitsVal ds < 2 ^ 63 then .ok (digitsVal ds : Int)
        else .error "strconv.Atoi: value out of range"
      else .error "strconv.Atoi: invalid syntax"
    else
      if (c :: ds).all isDigitC = true then
        if digitsVal (c :: ds) < 2 ^ 63 then .ok (digitsVal (c :: ds) : Int)
        else .error "strconv.Atoi: value out of range"
      else .error "strconv.Atoi: invalid syntax"

/-! ## Data model of the source -/

/-- Score describes the score of an evaluation. -/
structure Score where
  Eval : String
  Value : Int
deriving DecidableEq, Repr

/-- Info describes a stockfish evaluation output. -/
structure Info where
  Depth : Int
  Seldepth : Int
  Multipv : Int
  Score : Score
  Nodes : Int
  Nps : Int
  Tbhits : Int
  Time : Int
  Pv : String
deriving DecidableEq, Repr

/-- Zero value of the Info struct, the record the source builds with
the composite literal of an empty Info. -/
def emptyInfo : Info :=
  { Depth := 0, Seldepth := 0, Multipv := 0, Score := { Eval := "", Value := 0 }
    Nodes := 0, Nps := 0, Tbhits := 0, Time := 0, Pv := "" }

/-- BestMove contains info on the next best move; the Info pointer may be
nil, modelled as an Option. -/
structure BestMove where
  Move : String
  Ponder : String
  Info : Option Info
deriving DecidableEq, Repr

/-! ## The scanner for the pattern key-space-digits

Embeds the Go scan regexp.MustCompile(field + " (d+)") together with
FindAllStringSubmatch taking the leftmost match: the first position where
the literal key followed by a space and at least one digit occurs; the
capture is the maximal digit run there. -/

/-- Match of the key-value pattern anchored at the head of the list. -/
def matchKVAt (k : List Char) (s : List Char) : Option (List Char) :=
  match dropStart (k ++ [' ']) s with
  | none => none
  | some r =>
    let ds := r.takeWhile isDigitC
    if ds = [] then none else some ds

/-- Leftmost match of the key-value pattern anywhere in the list. -/
def findKV (k : List Char) : List Char → Option (List Char)
  | [] => none
  | c :: rest =>
    match matchKVAt k (c :: rest) with
    | some d => some d
    | none => findKV k rest

/-! ## The scanner for the score pattern

Embeds regexp score (w+) (-?d+) with leftmost-first semantics; captures
are the word run and the signed digit run. -/

/-- Parse of the signed integer part -?d+ at the head of the list. -/
def sdParse (r : List Char) : Option (List Char) :=
  match r with
  | [] => none
  | c :: r2 =>
    if c = '-' then
      let d := r2.takeWhile isDigitC
      if d = [] then none else some ('-' :: d)
    else
      let d := (c :: r2).takeWhile isDigitC
      if d = [] then none else some d

/-- Match of the part after the literal score keyword and its space:
a word run, a space, then a signed integer. -/
def scoreTail (r : List Char) : Option (List Char × List Char) :=
  let u := r.takeWhile isWordC
  if u = [] then none
  else
    match r.dropWhile isWordC with
    | ' ' :: r2 =>
      match sdParse r2 with
      | some sd => some (u, sd)
      | none => none
    | _ => none

/-- Match of the whole score pattern anchored at the head of the list. -/
def matchScoreAt (s : List Char) : Option (List Char × List Char) :=
  match dropStart ("score".data ++ [' ']) s with
  | some r => scoreTail r
  | none => none

/-- Leftmost match of the score pattern anywhere in the list. -/
def findScore : List Char → Option (List Char × List Char)
  | [] => none
  | c :: rest =>
    match matchScoreAt (c :: rest) with
    | some p => some p
    | none => findScore rest

/-! ## The scanner for the pv pattern

Embeds the source pattern built from UCIMoveRegex: a space, the literal
pv keyword, a space, then one move token and greedily further
space-separated move tokens; the capture is the move list text. -/

/-- Parse of one UCI move token [a-h]d[a-h]d[qrnb]? at the head, greedy in
the optional promotion letter, returning the token text and the rest. -/
def parseMT : List Char → Option (List Char × List Char)
  | f1 :: d1 :: f2 :: d2 :: rest =>
    if isFileC f1 && isDigitC d1 && isFileC f2 && isDigitC d2 then
      match rest with
      | p :: rest2 =>
        if isPromoC p then some ([f1, d1, f2, d2, p], rest2)
        else some ([f1, d1, f2, d2], rest)
      | [] => some ([f1, d1, f2, d2], [])
    else none
  | _ => none

theorem parseMT_shrinks : ∀ {s t r : List Char}, parseMT s = some (t, r) → r.length + 4 ≤ s.length := by
  intro s t r h
  match s with
  | f1 :: d1 :: f2 :: d2 :: rest =>
    simp only [parseMT] at h
    split at h
    · split at h
      · split at h <;>
          (simp only [Option.some.injEq, Prod.mk.injEq] at h
           obtain ⟨h1, h2⟩ := h
           subst h1
           subst h2
           simp only [List.length_cons]
           omega)
      · simp only [Option.some.injEq, Prod.mk.injEq] at h
        obtain ⟨h1, h2⟩ := h
        subst h1
        subst h2
        simp only [List.length_cons]
        omega
    · exact absurd h (by simp)
  | [] => simp [parseMT] at h
  | [_] => simp [parseMT] at h
  | [_, _] => simp [parseMT] at h
  | [_, _, _] => simp [parseMT] at h

/-- Greedy star over space-then-move-token groups, on explicit fuel so
that the recursion is structural and the function evaluates inside the
kernel. -/
def pvStarF : Nat → List Char → List Char × List Char
  | 0, s => ([], s)
  | Nat.succ fuel, s =>
    match s with
    | [] => ([], [])
    | c :: rest =>
      if c = ' ' then
        match parseMT rest with
        | some (tok, rest2) =>
          (' ' :: (tok ++ (pvStarF fuel rest2).1), (pvStarF fuel rest2).2)
        | none => ([], c :: rest)
      else ([], c :: rest)

/-- Greedy star over space-then-move-token groups: returns the consumed
text and the rest of the list. -/
def pvStar (s : List Char) : List Char × List Char :=
  pvStarF s.length s

/-- Parse of the move-list group: one move token then the greedy star. -/
def pvList (s : List Char) : Option (List Char) :=
  match parseMT s with
  | none => none
  | some (tok, rest) => some (tok ++ (pvStar rest).1)

/-- Match of the pv pattern anchored at the head: a space, pv, a space,
then the move list. -/
def matchPvAt (s : List Char) : Option (List Char) :=
  match dropStart (' ' :: 'p' :: 'v' :: [' ']) s with
  | some r => pvList r
  | none => none

/-- Leftmost match of the pv pattern anywhere in the list. -/
def findPv : List Char → Option (List Char)
  | [] => none
  | c :: rest =>
    match matchPvAt (c :: rest) with
    | some p => some p
    | none => findPv rest

/-! ## The scanner for the diagnostic pattern

Embeds regexp info string [^ ]+ evaluation using [^ ]+ enabled. -/

/-- Match of the diagnostic pattern part after the literal info keyword and
its space. -/
def diagTail (r : List Char) : Bool :=
  match dropStart ("string".data ++ [' ']) r with
  | none => false
  | some r1 =>
    let a := r1.takeWhile nonSpace
    if a = [] then false
    else
      match dropStart (" evaluation using ".data) (r1.dropWhile nonSpace) with
      | none => false
      | some r2 =>
        let b := r2.takeWhile nonSpace
        if b = [] then false
        else
          match dropStart (" enabled".data) (r2.dropWhile nonSpace) with
          | some _ => true
          | none => false

/-- Match of the diagnostic pattern anchored at the head of the list. -/
def matchDiagAt (s : List Char) : Bool :=
  match dropStart ("info".data ++ [' ']) s with
  | some r => diagTail r
  | none => false

/-- Leftmost search of the diagnostic pattern anywhere in the list. -/
def findDiag : List Char → Bool
  | [] => false
  | c :: rest => matchDiagAt (c :: rest) || findDiag rest

/-! ## ParseInfo -/

/-- ParseInfo parses stockfish evaluation output, embedding the source
function: the diagnostic-notice check first, then the pv scan, the score
scan, and the seven single-value fields depth, seldepth, multipv, nodes,
nps, tbhits, time in that order, each scanned independently over the whole
line and converted with strconv.Atoi. -/
def ParseInfo (line : String) : GoResult Info :=
  let s := line.data
  if findDiag s then .ok emptyInfo
  else
    match findPv s with
    | none => .err ("Could not parse pv: " ++ line)
    | some pv =>
      match findScore s with
      | none => .err ("Could not parse score: " ++ line)
      | some (ev, sd) =>
        match goAtoi sd with
        | .error e => .err e
        | .ok sv =>
          match findKV "depth".data s with
          | none => .err ("Could not parse depth: " ++ line)
          | some d1 =>
            match goAtoi d1 with
            | .error e => .err e
            | .ok v1 =>
              match findKV "seldepth".data s with
              | none => .err ("Could not parse seldepth: " ++ line)
              | some d2 =>
                match goAtoi d2 with
                | .error e => .err e
                | .ok v2 =>
                  match findKV "multipv".data s with
                  | none => .err ("Could not parse multipv: " ++ line)
                  | some d3 =>
                    match goAtoi d3 with
                    | .error e => .err e
                    | .ok v3 =>
                      match findKV "nodes".data s with
                      | none => .err ("Could not parse nodes: " ++ line)
                      | some d4 =>
                        match goAtoi d4 with
                        | .error e => .err e
                        | .ok v4 =>
                          match findKV "nps".data s with
                          | none => .err ("Could not parse nps: " ++ line)
                          | some d5 =>
                            match goAtoi d5 with
                            | .error e => .err e
                            | .ok v5 =>
                              match findKV "tbhits".data s with
                              | none => .err ("Could not parse tbhits: " ++ line)
                              | some d6 =>
                                match goAtoi d6 with
                                | .error e => .err e
                                | .ok v6 =>
                                  match findKV "time".data s with
                                  | none => .err ("Could not parse time: " ++ line)
                                  | some d7 =>
                                    match goAtoi d7 with
                                    | .error e => .err e
                                    | .ok v7 =>
                                      .ok { Depth := v1, Seldepth := v2, Multipv := v3
                                            Score := { Eval := String.mk ev, Value := sv }
                                            Nodes := v4, Nps := v5, Tbhits := v6, Time := v7
                                            Pv := String.mk pv }

/-! ## ParseBestMove -/

/-- Go slice indexing: out-of-range access is a runtime panic. -/
def goIndex {α : Type} (l : List α) (i : Nat) : GoResult α :=
  match l.get? i with
  | some x => .ok x
  | none => .panic "runtime error: index out of range"

/-- ParseBestMove parses stockfish bestmove output, embedding the source:
the line is split on spaces; the ponder value is the empty string when
fewer than three pieces exist and otherwise the piece at index 3; the move
is the piece at index 1; out-of-range accesses panic exactly where the
source indexes its slice. -/
def ParseBestMove (line : String) : GoResult BestMove :=
  let t := splitSp line.data
  let ponderR : GoResult (List Char) :=
    if t.length < 3 then .ok []
    else goIndex t 3
  match ponderR with
  | .ok p =>
    match goIndex t 1 with
    | .ok mv => .ok { Move := String.mk mv, Ponder := String.mk p, Info := none }
    | .err e => .err e
    | .panic e => .panic e
  | .err e => .err e
  | .panic e => .panic e

/-! ## The match orchestrator

Engines are identified by a number standing for the engine pointer; the
behaviour of the two external engine processes is a parameter: an oracle
mapping an engine and a position (the move history sent by SetPosition) to
the result of BestMove. Move records the engine invocations it performs in
a call trace, so that theorems can speak about which engine was driven. -/

/-- MaxMoves is the maximum number of move in the play. -/
def MaxMoves : Nat := 500

/-- Match represents a match between two engines. -/
structure Match where
  White : String
  WhiteEngine : Nat
  Black : String
  BlackEngine : Nat
  Moves : List String
  Winner : String
  WinnerEngine : Option Nat
deriving DecidableEq, Repr

/-- Invocation of an engine operation performed by Move. -/
inductive EngineCall where
  | setPosition (engine : Nat) (moves : List String)
  | bestMove (engine : Nat)
deriving DecidableEq, Repr

/-- Engine an invocation is directed at. -/
def EngineCall.engine : EngineCall → Nat
  | .setPosition e _ => e
  | .bestMove e => e

/-- Oracle type: the response of engine BestMove, given the engine and the
position set immediately before. -/
def EngineOracle : Type := Nat → List String → GoResult BestMove

/-- Move advances the game by a single move if possible, embedding the
source: the move-ceiling check, active-side selection by parity of the
move-history length, SetPosition then BestMove on the active engine, the
history append, the mate handling, and the ponder check. The second
component is the trace of engine invocations performed. -/
def Match.Move (o : EngineOracle) (m : Match) : GoResult (Bool × Match) × List EngineCall :=
  if m.Moves.length = MaxMoves then (.ok (false, m), [])
  else
    let activeEngine := if m.Moves.length % 2 ≠ 0 then m.BlackEngine else m.WhiteEngine
    let activeEngineName := if m.Moves.length % 2 ≠ 0 then m.Black else m.White
    let inactiveEngine := if m.Moves.length % 2 ≠ 0 then m.WhiteEngine else m.BlackEngine
    let inactiveEngineName := if m.Moves.length % 2 ≠ 0 then m.White else m.Black
    let calls := [EngineCall.setPosition activeEngine m.Moves, EngineCall.bestMove activeEngine]
    match o activeEngine m.Moves with
    | .err e => (.err e, calls)
    | .panic e => (.panic e, calls)
    | .ok bestMove =>
      let m1 := { m with Moves := m.Moves ++ [bestMove.Move] }
      match bestMove.Info with
      | none => (.panic "runtime error: invalid memory address or nil pointer dereference", calls)
      | some info =>
        if info.Score.Eval = "mate" then
          let matenum := info.Score.Value
          if 0 < matenum then
            (.ok (false, { m1 with Winner := activeEngineName, WinnerEngine := some activeEngine }), calls)
          else if matenum < 0 then
            (.ok (false, { m1 with Winner := inactiveEngineName, WinnerEngine := some inactiveEngine }), calls)
          else (.ok (false, m1), calls)
        else if bestMove.Ponder ≠ "(none)" then (.ok (true, m1), calls)
        else (.ok (false, m1), calls)

/-- Run plays the game until Move reports that no further move follows,
embedding the source loop; the fuel argument bounds the number of
iterations so the function is total (the source loop itself has no such
bound), and exhausted fuel returns like a terminated loop. -/
def Match.Run (o : EngineOracle) : Nat → Match → GoResult (String × Match)
  | 0, m => .ok (m.Winner, m)
  | fuel + 1, m =>
    match (Match.Move o m).1 with
    | .err e => .err e
    | .panic e => .panic e
    | .ok (true, m') => Match.Run o fuel m'
    | .ok (false, m') => .ok (m'.Winner, m')

/-! ## Engine parameter construction of NewEngineWithAllOptions

Go maps with string keys are modelled as functions to Option String; the
override loop over the caller-supplied map rewrites each of its keys, so
its effect is exactly: the caller's value where present, the base value
otherwise. -/

/-- Base configuration map literal of NewEngineWithAllOptions. -/
def baseParamDefaults : String → Option String := fun n =>
  if n = "Contempt" then some "0"
  else if n = "Threads" then some "1"
  else if n = "Hash" then some "16"
  else if n = "MultiPV" then some "1"
  else if n = "Skill Level" then some "20"
  else if n = "Move Overhead" then some "30"
  else if n = "Slow Mover" then some "80"
  else if n = "UCI_Chess960" then some "false"
  else none

/-- Reduction of an unbounded integer to the 64-bit two's-complement
machine integer it denotes: Go's int arithmetic wraps on overflow. -/
def goWrap (n : Int) : Int := (n + 2 ^ 63) % 2 ^ 64 - 2 ^ 63

theorem goWrap_eq_self {n : Int} (h1 : -2 ^ 63 ≤ n) (h2 : n < 2 ^ 63) : goWrap n = n := by
  unfold goWrap
  rw [Int.emod_eq_of_lt (by omega) (by omega)]
  omega

/-- Embedding of rand.Intn: the draw argument stands for the value the
random source yields, constrained by hypotheses to [0, n) in theorems; a
non-positive bound is a runtime panic, as in math/rand. -/
def randIntn (draw : Int) (n : Int) : GoResult Int :=
  if n ≤ 0 then .panic "invalid argument to Intn" else .ok draw

/-- Embedding of strconv.Itoa. -/
def goItoa (i : Int) : String := toString i

/-- Parameter-map computation of NewEngineWithAllOptions: the base map,
then when random is set the Contempt entry becomes
Itoa (Intn (randMax - randMin) + randMin) with both the subtraction and
the addition performed in wrapping 64-bit machine arithmetic, then the
caller-supplied options override entries of the same name. -/
def engineParam (param : String → Option String) (random : Bool)
    (randMin randMax draw : Int) : GoResult (String → Option String) :=
  if random then
    match randIntn draw (goWrap (randMax - randMin)) with
    | .ok r =>
      let base2 : String → Option String :=
        fun n => if n = "Contempt" then some (goItoa (goWrap (r + randMin))) else baseParamDefaults n
      .ok (fun n =>
        match param n with
        | some v => some v
        | none => base2 n)
    | .err e => .err e
    | .panic e => .panic e
  else
    .ok (fun n =>
      match param n with
      | some v => some v
      | none => baseParamDefaults n)

/-! ## Helper lemmas about splitSp -/

theorem splitSp_ne_nil (s : List Char) : splitSp s ≠ [] := by
  induction s with
  | nil => simp [splitSp]
  | cons c r ih =>
    simp only [splitSp]
    split
    · simp
    · split
      · simp
      · simp

theorem splitSp_spaceless (a : List Char) (ha : ∀ c ∈ a, c ≠ ' ') : splitSp a = [a] := by
  induction a with
  | nil => rfl
  | cons c r ih =>
    have hc : c ≠ ' ' := ha c (by simp)
    have hr := ih (fun x hx => ha x (by simp [hx]))
    simp only [splitSp, if_neg hc, hr]

theorem splitSp_append (a : List Char) (r : List Char) (ha : ∀ c ∈ a, c ≠ ' ') :
    splitSp (a ++ ' ' :: r) = a :: splitSp r := by
  induction a with
  | nil => simp [splitSp]
  | cons c a' ih =>
    have hc : c ≠ ' ' := ha c (by simp)
    have ih' := ih (fun x hx => ha x (by simp [hx]))
    simp only [List.cons_append, splitSp, if_neg hc]
    first
    | rw [ih']
    | rw [List.append_eq, ih']

/-! ## Basic lemmas about the scanners -/

theorem dropStart_exact (p r : List Char) : dropStart p (p ++ r) = some r := by
  induction p with
  | nil => rfl
  | cons c p' ih => simp [dropStart, ih]

theorem dropStart_some_append {p s r : List Char} (h : dropStart p s = some r) : s = p ++ r := by
  induction p generalizing s with
  | nil =>
    simp only [dropStart, Option.some.injEq] at h
    simp [h]
  | cons c p' ih =>
    match s with
    | [] => simp [dropStart] at h
    | d :: s' =>
      simp only [dropStart] at h
      split at h
      · rename_i hcd
        rw [hcd, ih h]
        rfl
      · cases h

theorem takeWhile_all_eq {p : Char → Bool} {u : List Char} (h : u.all p = true) :
    u.takeWhile p = u := by
  induction u with
  | nil => rfl
  | cons c u' ih =>
    simp only [List.all_cons, Bool.and_eq_true] at h
    simp [List.takeWhile_cons, h.1, ih h.2]

theorem tw_break (p : Char → Bool) (hp : p ' ' = false) (u R : List Char) :
    (u ++ ' ' :: R).takeWhile p = u.takeWhile p := by
  induction u with
  | nil => simp [List.takeWhile_cons, hp]
  | cons c u' ih =>
    simp only [List.cons_append, List.takeWhile_cons]
    cases hc : p c <;> simp [ih]

theorem dw_break (p : Char → Bool) (hp : p ' ' = false) (u R : List Char) :
    (u ++ ' ' :: R).dropWhile p = u.dropWhile p ++ ' ' :: R := by
  induction u with
  | nil => simp [List.dropWhile_cons, hp]
  | cons c u' ih =>
    simp only [List.cons_append, List.dropWhile_cons]
    cases hc : p c <;> simp [ih]

theorem dw_head {p : Char → Bool} {l : List Char} {c : Char} {r : List Char}
    (h : l.dropWhile p = c :: r) : p c = false := by
  induction l with
  | nil => cases h
  | cons d l' ih =>
    simp only [List.dropWhile_cons] at h
    split at h
    · exact ih h
    · rename_i hd
      cases h
      simp_all

theorem dw_mem {p : Char → Bool} {l : List Char} {c : Char}
    (h : c ∈ l.dropWhile p) : c ∈ l := by
  induction l with
  | nil => simp [List.dropWhile] at h
  | cons d l' ih =>
    simp only [List.dropWhile_cons] at h
    split at h
    · exact List.mem_cons_of_mem d (ih h)
    · exact h

theorem all_of_digits_nospace {u : List Char} (h : u.all isDigitC = true) : ' ' ∉ u := by
  intro hmem
  have := List.all_eq_true.mp h ' ' hmem
  simp [isDigitC] at this

theorem sfx_self (k : List Char) : sfx k k = true := by
  cases k <;> simp [sfx]

theorem sfx_mem {k t : List Char} (h : sfx k t = true) : ∀ c ∈ k, c ∈ t := by
  induction t with
  | nil =>
    simp only [sfx, beq_iff_eq] at h
    subst h
    intro c hc
    exact hc
  | cons d t' ih =>
    simp only [sfx, Bool.or_eq_true, beq_iff_eq] at h
    rcases h with h | h
    · subst h
      intro c hc
      exact hc
    · intro c hc
      exact List.mem_cons_of_mem d (ih h c hc)

theorem sfx_false_of_class {k t : List Char} {p : Char → Bool}
    (hk : ∃ c ∈ k, p c = false) (ht : t.all p = true) : sfx k t = false := by
  by_contra hs
  rw [Bool.not_eq_false] at hs
  obtain ⟨c, hck, hcp⟩ := hk
  have hct : c ∈ t := sfx_mem hs c hck
  have := List.all_eq_true.mp ht c hct
  rw [this] at hcp
  cases hcp

/-! ## Separator lemmas: scanning a spaceless token followed by a space -/

theorem dropStart_sep {k t : List Char} (hk : ' ' ∉ k) (ht : ' ' ∉ t) (rest : List Char) :
    dropStart (k ++ [' ']) (t ++ ' ' :: rest) = if k = t then some rest else none := by
  induction k generalizing t with
  | nil =>
    match t with
    | [] => simp [dropStart]
    | c :: t' =>
      have hc : c ≠ ' ' := fun h => ht (h ▸ List.mem_cons_self c t')
      simp [dropStart, Ne.symm hc]
  | cons a k' ih =>
    match t with
    | [] =>
      have ha : a ≠ ' ' := fun h => hk (h ▸ List.mem_cons_self a k')
      simp [dropStart, ha]
    | c :: t' =>
      simp only [List.cons_append, dropStart, List.append_eq]
      by_cases hac : a = c
      · subst hac
        have hk' : ' ' ∉ k' := fun h => hk (List.mem_cons_of_mem _ h)
        have ht' : ' ' ∉ t' := fun h => ht (List.mem_cons_of_mem _ h)
        rw [if_pos rfl, ih hk' ht']
        simp [List.cons.injEq]
      · have hne : ¬ (a :: k' = c :: t') := by simp [List.cons.injEq, hac]
        rw [if_neg hac, if_neg hne]

theorem matchKVAt_sep {k t : List Char} (hk : ' ' ∉ k) (ht : ' ' ∉ t) (rest : List Char) :
    matchKVAt k (t ++ ' ' :: rest) =
      if k = t ∧ rest.takeWhile isDigitC ≠ [] then some (rest.takeWhile isDigitC) else none := by
  simp only [matchKVAt, dropStart_sep hk ht]
  by_cases he : k = t
  · simp only [he, if_pos rfl, true_and]
    by_cases hd : rest.takeWhile isDigitC = [] <;> simp [hd]
  · simp [he]

theorem matchKVAt_space {k s d : List Char} (h : matchKVAt k s = some d) : ' ' ∈ s := by
  rcases hds : dropStart (k ++ [' ']) s with _ | r
  · simp [matchKVAt, hds] at h
  · have hs := dropStart_some_append hds
    rw [hs]
    simp

theorem findKV_nospace {k s : List Char} (hs : ' ' ∉ s) : findKV k s = none := by
  induction s with
  | nil => rfl
  | cons c r ih =>
    have hr : ' ' ∉ r := fun h => hs (List.mem_cons_of_mem _ h)
    rcases hm : matchKVAt k (c :: r) with _ | d
    · simp [findKV, hm, ih hr]
    · exact absurd (matchKVAt_space hm) hs

theorem findKV_sep {k : List Char} (hk0 : k ≠ []) (hk : ' ' ∉ k) (t rest : List Char)
    (ht : ' ' ∉ t) :
    findKV k (t ++ ' ' :: rest) =
      if sfx k t = true ∧ rest.takeWhile isDigitC ≠ [] then some (rest.takeWhile isDigitC)
      else findKV k rest := by
  induction t with
  | nil =>
    have hmk : matchKVAt k (' ' :: rest) = none := by
      match k, hk0 with
      | a :: k', _ =>
        have ha : a ≠ ' ' := fun h => hk (h ▸ List.mem_cons_self a k')
        simp [matchKVAt, dropStart, ha]
    have hsf : sfx k [] = false := by
      match k, hk0 with
      | a :: k', _ => simp [sfx]
    simp only [List.nil_append, findKV, hmk, hsf]
    simp
  | cons c t' ih =>
    have ht' : ' ' ∉ t' := fun h => ht (List.mem_cons_of_mem _ h)
    have step : findKV k ((c :: t') ++ ' ' :: rest) =
        match matchKVAt k (c :: (t' ++ ' ' :: rest)) with
        | some d => some d
        | none => findKV k (t' ++ ' ' :: rest) := rfl
    rw [step, show c :: (t' ++ ' ' :: rest) = (c :: t') ++ ' ' :: rest from rfl,
      matchKVAt_sep hk ht]
    by_cases hd : rest.takeWhile isDigitC = []
    · simp [hd, ih ht']
    · by_cases he : k = c :: t'
      · subst he
        simp [sfx_self, hd]
      · have hsfx : sfx k (c :: t') = sfx k t' := by
          simp [sfx, he]
        simp [he, hsfx, ih ht', hd]

/-! ## Token-level key-value search -/

/-- Token-level form of the key-value scan: the pattern fires at the first
token of which the key is a suffix and whose successor token starts with a
digit; the capture is that successor's digit run. -/
def findKVtok (k : List Char) : List (List Char) → Option (List Char)
  | [] => none
  | [_] => none
  | t :: u :: ts =>
    if sfx k t = true ∧ u.takeWhile isDigitC ≠ [] then some (u.takeWhile isDigitC)
    else findKVtok k (u :: ts)

theorem findKVtok_skip {k t : List Char} (h : sfx k t = false) (ts : List (List Char)) :
    findKVtok k (t :: ts) = findKVtok k ts := by
  cases ts with
  | nil => rfl
  | cons u ts' => simp [findKVtok, h]

theorem tw_join (p : Char → Bool) (hp : p ' ' = false) (u : List Char) (ts : List (List Char)) :
    (joinTok (u :: ts)).takeWhile p = u.takeWhile p := by
  cases ts with
  | nil => rfl
  | cons w ts' =>
    show (u ++ ' ' :: joinTok (w :: ts')).takeWhile p = u.takeWhile p
    rw [tw_break p hp]

theorem findKV_join {k : List Char} (hk0 : k ≠ []) (hk : ' ' ∉ k) :
    ∀ ts : List (List Char), (∀ t ∈ ts, t ≠ [] ∧ ' ' ∉ t) →
      findKV k (joinTok ts) = findKVtok k ts := by
  intro ts
  induction ts with
  | nil => intro _; rfl
  | cons t ts' ih =>
    intro hts
    have htw : ' ' ∉ t := (hts t (List.mem_cons_self t ts')).2
    cases ts' with
    | nil => exact findKV_nospace htw
    | cons u ts'' =>
      have hts' : ∀ x ∈ u :: ts'', x ≠ [] ∧ ' ' ∉ x :=
        fun x hx => hts x (List.mem_cons_of_mem _ hx)
      show findKV k (t ++ ' ' :: joinTok (u :: ts'')) = _
      rw [findKV_sep hk0 hk t _ htw, ih hts', tw_join isDigitC (by decide) u ts'']
      rfl

/-! ## Separator lemmas for the score scanner -/

theorem sfx_le_length {k t : List Char} (h : sfx k t = true) : k.length ≤ t.length := by
  induction t with
  | nil =>
    simp only [sfx, beq_iff_eq] at h
    simp [h]
  | cons c t' ih =>
    simp only [sfx, Bool.or_eq_true, beq_iff_eq] at h
    rcases h with h | h
    · simp [h]
    · have := ih h
      simp only [List.length_cons]
      omega

theorem dw_ne_nil {p : Char → Bool} {u : List Char} (h : ¬ u.all p = true) :
    u.dropWhile p ≠ [] := by
  induction u with
  | nil => simp at h
  | cons c u' ih =>
    simp only [List.all_cons, Bool.and_eq_true] at h
    simp only [List.dropWhile_cons]
    split
    · rename_i hc
      exact ih (fun hall => h ⟨hc, hall⟩)
    · simp

theorem matchScoreAt_sep {t : List Char} (ht : ' ' ∉ t) (rest : List Char) :
    matchScoreAt (t ++ ' ' :: rest) =
      if "score".data = t then scoreTail rest else none := by
  have hsp : ' ' ∉ "score".data := by decide
  simp only [matchScoreAt, dropStart_sep hsp ht]
  by_cases he : "score".data = t
  · rw [if_pos he, if_pos he]
  · rw [if_neg he, if_neg he]

theorem matchScoreAt_space {s : List Char} {p : List Char × List Char}
    (h : matchScoreAt s = some p) : ' ' ∈ s := by
  unfold matchScoreAt at h
  split at h
  · rename_i r hds
    rw [dropStart_some_append hds]
    simp
  · cases h

theorem findScore_nospace {s : List Char} (hs : ' ' ∉ s) : findScore s = none := by
  induction s with
  | nil => rfl
  | cons c r ih =>
    have hr : ' ' ∉ r := fun h => hs (List.mem_cons_of_mem _ h)
    rcases hm : matchScoreAt (c :: r) with _ | p
    · simp [findScore, hm, ih hr]
    · exact absurd (matchScoreAt_space hm) hs

theorem findScore_sep (t rest : List Char) (ht : ' ' ∉ t) :
    findScore (t ++ ' ' :: rest) =
      if sfx "score".data t = true then
        match scoreTail rest with
        | some p => some p
        | none => findScore rest
      else findScore rest := by
  induction t with
  | nil =>
    have hmk : matchScoreAt (' ' :: rest) = none := by
      simp [matchScoreAt, dropStart]
    have hsf : sfx "score".data [] = false := by decide
    simp only [List.nil_append, findScore, hmk, hsf]
    simp
  | cons c t' ih =>
    have ht' : ' ' ∉ t' := fun h => ht (List.mem_cons_of_mem _ h)
    have step : findScore ((c :: t') ++ ' ' :: rest) =
        match matchScoreAt (c :: (t' ++ ' ' :: rest)) with
        | some p => some p
        | none => findScore (t' ++ ' ' :: rest) := rfl
    rw [step, show c :: (t' ++ ' ' :: rest) = (c :: t') ++ ' ' :: rest from rfl,
      matchScoreAt_sep ht]
    by_cases he : "score".data = c :: t'
    · have hsfx : sfx "score".data (c :: t') = true := by
        rw [he]
        exact sfx_self _
      have hlen : sfx "score".data t' = false := by
        by_contra hx
        rw [Bool.not_eq_false] at hx
        have h1 := sfx_le_length hx
        have h2 : ("score".data).length = t'.length + 1 := by
          rw [he]
          rfl
        omega
      rw [if_pos he, if_pos hsfx, ih ht', if_neg (by simp [hlen])]
    · have hbeq : ("score".data == c :: t') = false := beq_eq_false_iff_ne.mpr he
      have hsfx : sfx "score".data (c :: t') = sfx "score".data t' := by
        show (("score".data == c :: t') || sfx "score".data t') = sfx "score".data t'
        rw [hbeq, Bool.false_or]
      rw [if_neg he, ih ht', hsfx]

/-! ## Token-level score search -/

theorem sdParse_break (w R : List Char) (hw : ' ' ∉ w) :
    sdParse (w ++ ' ' :: R) = sdParse w := by
  match w with
  | [] =>
    show sdParse (' ' :: R) = sdParse []
    simp [sdParse, List.takeWhile_cons, (by decide : isDigitC ' ' = false),
      (by decide : ¬ (' ' = '-'))]
  | c :: w2 =>
    show sdParse (c :: (w2 ++ ' ' :: R)) = sdParse (c :: w2)
    by_cases hc : c = '-'
    · simp only [sdParse, if_pos hc, tw_break isDigitC (by decide) w2 R]
    · simp only [sdParse, if_neg hc]
      rw [show c :: (w2 ++ ' ' :: R) = (c :: w2) ++ ' ' :: R from rfl,
        tw_break isDigitC (by decide) (c :: w2) R]

theorem sdParse_join (w : List Char) (ts : List (List Char)) (hw : ' ' ∉ w) :
    sdParse (joinTok (w :: ts)) = sdParse w := by
  cases ts with
  | nil => rfl
  | cons u ts' =>
    show sdParse (w ++ ' ' :: joinTok (u :: ts')) = sdParse w
    exact sdParse_break w _ hw

/-- Token-level form of the tail of the score pattern. -/
def scoreTailTok : List (List Char) → Option (List Char × List Char)
  | u :: w :: _ =>
    if u ≠ [] ∧ u.all isWordC = true then
      match sdParse w with
      | some sd => some (u, sd)
      | none => none
    else none
  | _ => none

theorem scoreTail_nospace {u : List Char} (hu : ' ' ∉ u) : scoreTail u = none := by
  rcases hdw : u.dropWhile isWordC with _ | ⟨c, r⟩
  · simp only [scoreTail, hdw]
    split
    · rfl
    · rfl
  · have hc : c ∈ u := dw_mem (hdw ▸ List.mem_cons_self c r)
    have hcs : c ≠ ' ' := fun h => hu (h ▸ hc)
    simp only [scoreTail, hdw]
    split
    · rfl
    · split
      · rename_i r2 heq
        injection heq with hh _
        exact absurd hh hcs
      · rfl

theorem scoreTail_join (ts : List (List Char)) (hts : ∀ t ∈ ts, t ≠ [] ∧ ' ' ∉ t) :
    scoreTail (joinTok ts) = scoreTailTok ts := by
  match ts with
  | [] => rfl
  | [u] =>
    have hu : ' ' ∉ u := (hts u (List.mem_cons_self u [])).2
    show scoreTail u = scoreTailTok [u]
    rw [scoreTail_nospace hu]
    rfl
  | u :: w :: ts' =>
    have hu0 : u ≠ [] := (hts u (List.mem_cons_self u _)).1
    have hu : ' ' ∉ u := (hts u (List.mem_cons_self u _)).2
    have hw : ' ' ∉ w := (hts w (List.mem_cons_of_mem _ (List.mem_cons_self w _))).2
    show scoreTail (u ++ ' ' :: joinTok (w :: ts')) = scoreTailTok (u :: w :: ts')
    have htwb := tw_break isWordC (by decide) u (joinTok (w :: ts'))
    have hdwb := dw_break isWordC (by decide) u (joinTok (w :: ts'))
    by_cases hall : u.all isWordC = true
    · have htw2 : u.takeWhile isWordC = u := takeWhile_all_eq hall
      have hdw0 : u.dropWhile isWordC = [] := by
        rcases hdwe : u.dropWhile isWordC with _ | ⟨c, r⟩
        · rfl
        · have h1 := dw_head hdwe
          have hcm : c ∈ u := dw_mem (hdwe ▸ List.mem_cons_self c r)
          have h2 := List.all_eq_true.mp hall c hcm
          rw [h1] at h2
          cases h2
      simp only [scoreTail, htwb, hdwb, htw2, hdw0, List.nil_append, if_neg hu0,
        sdParse_join w ts' hw, scoreTailTok]
      rw [if_pos (And.intro hu0 hall)]
    · have hdex : ∃ c r, u.dropWhile isWordC = c :: r := by
        rcases h : u.dropWhile isWordC with _ | ⟨c, r⟩
        · exact absurd h (dw_ne_nil hall)
        · exact ⟨c, r, rfl⟩
      obtain ⟨c, r, hdwe⟩ := hdex
      have hc : c ∈ u := dw_mem (hdwe ▸ List.mem_cons_self c r)
      have hcs : c ≠ ' ' := fun h => hu (h ▸ hc)
      have hrhs : scoreTailTok (u :: w :: ts') = none := by
        simp [scoreTailTok, hall]
      rw [hrhs]
      simp only [scoreTail, htwb, hdwb, hdwe, List.cons_append]
      split
      · rfl
      · split
        · rename_i r2 heq
          injection heq with hh _
          exact absurd hh hcs
        · rfl

/-- Token-level form of the score scan. -/
def findScoreTok : List (List Char) → Option (List Char × List Char)
  | [] => none
  | t :: ts =>
    if sfx "score".data t = true then
      match scoreTailTok ts with
      | some p => some p
      | none => findScoreTok ts
    else findScoreTok ts

theorem findScore_join :
    ∀ ts : List (List Char), (∀ t ∈ ts, t ≠ [] ∧ ' ' ∉ t) →
      findScore (joinTok ts) = findScoreTok ts := by
  intro ts
  induction ts with
  | nil => intro _; rfl
  | cons t ts' ih =>
    intro hts
    have htw : ' ' ∉ t := (hts t (List.mem_cons_self t ts')).2
    have hts' : ∀ x ∈ ts', x ≠ [] ∧ ' ' ∉ x :=
      fun x hx => hts x (List.mem_cons_of_mem _ hx)
    cases ts' with
    | nil =>
      show findScore t = findScoreTok [t]
      rw [findScore_nospace htw]
      simp [findScoreTok, scoreTailTok]
    | cons u ts'' =>
      show findScore (t ++ ' ' :: joinTok (u :: ts'')) = _
      rw [findScore_sep t _ htw, ih hts', scoreTail_join (u :: ts'') hts']
      rfl

/-! ## Separator lemmas for the pv scanner -/

theorem dropStart_pat_nospace {k u : List Char} (hu : ' ' ∉ u) :
    dropStart (k ++ [' ']) u = none := by
  rcases h : dropStart (k ++ [' ']) u with _ | r
  · rfl
  · exfalso
    apply hu
    rw [dropStart_some_append h]
    simp

theorem matchPvAt_cons_ne {c : Char} (hc : c ≠ ' ') (s : List Char) :
    matchPvAt (c :: s) = none := by
  simp [matchPvAt, dropStart, Ne.symm hc]

theorem matchPvAt_space {s : List Char} {p : List Char} (h : matchPvAt s = some p) :
    ' ' ∈ s := by
  unfold matchPvAt at h
  split at h
  · rename_i r hds
    rw [dropStart_some_append hds]
    simp
  · cases h

theorem findPv_nospace {s : List Char} (hs : ' ' ∉ s) : findPv s = none := by
  induction s with
  | nil => rfl
  | cons c r ih =>
    have hr : ' ' ∉ r := fun h => hs (List.mem_cons_of_mem _ h)
    rcases hm : matchPvAt (c :: r) with _ | p
    · simp [findPv, hm, ih hr]
    · exact absurd (matchPvAt_space hm) hs

theorem findPv_sep (t rest : List Char) (ht : ' ' ∉ t) :
    findPv (t ++ ' ' :: rest) =
      match matchPvAt (' ' :: rest) with
      | some p => some p
      | none => findPv rest := by
  induction t with
  | nil => rfl
  | cons c t' ih =>
    have hc : c ≠ ' ' := fun h => ht (h ▸ List.mem_cons_self c t')
    have ht' : ' ' ∉ t' := fun h => ht (List.mem_cons_of_mem _ h)
    show (match matchPvAt (c :: (t' ++ ' ' :: rest)) with
          | some p => some p
          | none => findPv (t' ++ ' ' :: rest)) = _
    rw [matchPvAt_cons_ne hc]
    exact ih ht'

/-! ## Exact move tokens -/

/-- Exact lexical form of a UCI move token: file, digit, file, digit, and
optionally one promotion letter. -/
def exactMT (m : List Char) : Bool :=
  match m with
  | [f1, d1, f2, d2] => isFileC f1 && isDigitC d1 && isFileC f2 && isDigitC d2
  | [f1, d1, f2, d2, p] => isFileC f1 && isDigitC d1 && isFileC f2 && isDigitC d2 && isPromoC p
  | _ => false

theorem parseMT_exact {m : List Char} (hm : exactMT m = true) (tail : List Char)
    (htail : tail = [] ∨ ∃ r, tail = ' ' :: r) :
    parseMT (m ++ tail) = some (m, tail) := by
  match m, hm with
  | [f1, d1, f2, d2], hm =>
    have hcond : (isFileC f1 && isDigitC d1 && isFileC f2 && isDigitC d2) = true := hm
    show parseMT (f1 :: d1 :: f2 :: d2 :: tail) = some ([f1, d1, f2, d2], tail)
    rcases htail with h0 | ⟨r, hr⟩
    · subst h0
      simp [parseMT, hcond]
    · subst hr
      simp [parseMT, hcond, (by decide : isPromoC ' ' = false)]
  | [f1, d1, f2, d2, p], hm =>
    have hcond : (isFileC f1 && isDigitC d1 && isFileC f2 && isDigitC d2 && isPromoC p)
        = true := hm
    simp only [Bool.and_eq_true] at hcond
    obtain ⟨⟨⟨⟨ha, hb⟩, hc0⟩, hd⟩, hpp⟩ := hcond
    have hc1 : (isFileC f1 && isDigitC d1 && isFileC f2 && isDigitC d2) = true := by
      simp [ha, hb, hc0, hd]
    show parseMT (f1 :: d1 :: f2 :: d2 :: p :: tail) = some ([f1, d1, f2, d2, p], tail)
    simp [parseMT, hc1, hpp]

theorem pvStarF_fuel : ∀ (f g : Nat) (s : List Char), s.length ≤ f → s.length ≤ g →
    pvStarF f s = pvStarF g s := by
  intro f
  induction f with
  | zero =>
    intro g s hf hg
    have h0 : s = [] := List.eq_nil_of_length_eq_zero (Nat.le_zero.mp hf)
    subst h0
    cases g with
    | zero => rfl
    | succ g2 => rfl
  | succ f2 ih =>
    intro g s hf hg
    cases g with
    | zero =>
      have h0 : s = [] := List.eq_nil_of_length_eq_zero (Nat.le_zero.mp hg)
      subst h0
      rfl
    | succ g2 =>
      match s with
      | [] => rfl
      | c :: rest =>
        show (if c = ' ' then
                match parseMT rest with
                | some (tok, rest2) =>
                  (' ' :: (tok ++ (pvStarF f2 rest2).1), (pvStarF f2 rest2).2)
                | none => ([], c :: rest)
              else ([], c :: rest)) =
             (if c = ' ' then
                match parseMT rest with
                | some (tok, rest2) =>
                  (' ' :: (tok ++ (pvStarF g2 rest2).1), (pvStarF g2 rest2).2)
                | none => ([], c :: rest)
              else ([], c :: rest))
        by_cases hc : c = ' '
        · rw [if_pos hc, if_pos hc]
          match hp : parseMT rest with
          | some (tok, rest2) =>
            have hlen := parseMT_shrinks hp
            have h1 : rest2.length ≤ f2 := by
              simp only [List.length_cons] at hf
              omega
            have h2 : rest2.length ≤ g2 := by
              simp only [List.length_cons] at hg
              omega
            show (' ' :: (tok ++ (pvStarF f2 rest2).1), (pvStarF f2 rest2).2) =
                 (' ' :: (tok ++ (pvStarF g2 rest2).1), (pvStarF g2 rest2).2)
            rw [ih g2 rest2 h1 h2]
          | none => rfl
        · rw [if_neg hc, if_neg hc]

theorem pvStar_nil : pvStar [] = ([], []) := rfl

theorem pvStar_cons_some {rest tok rest2 : List Char} (hp : parseMT rest = some (tok, rest2)) :
    pvStar (' ' :: rest) = (' ' :: (tok ++ (pvStar rest2).1), (pvStar rest2).2) := by
  have e : pvStar (' ' :: rest) =
      (match parseMT rest with
       | some (t, r2) => (' ' :: (t ++ (pvStarF rest.length r2).1), (pvStarF rest.length r2).2)
       | none => ([], ' ' :: rest)) := rfl
  rw [e, hp]
  show (' ' :: (tok ++ (pvStarF rest.length rest2).1), (pvStarF rest.length rest2).2) = _
  have hlen := parseMT_shrinks hp
  rw [pvStarF_fuel rest.length rest2.length rest2 (by omega) (Nat.le_refl _)]
  rfl

theorem pvStar_join : ∀ ms : List (List Char), ms ≠ [] →
    (∀ m ∈ ms, exactMT m = true) →
    pvStar (' ' :: joinTok ms) = (' ' :: joinTok ms, []) := by
  intro ms
  induction ms with
  | nil => intro h; exact absurd rfl h
  | cons m ms' ih =>
    intro _ hall
    have hm : exactMT m = true := hall m (List.mem_cons_self _ _)
    cases ms' with
    | nil =>
      show pvStar (' ' :: m) = (' ' :: m, [])
      have hp : parseMT (m ++ []) = some (m, []) := parseMT_exact hm [] (Or.inl rfl)
      rw [List.append_nil] at hp
      rw [pvStar_cons_some hp, pvStar_nil]
      simp
    | cons m2 ms'' =>
      have hall' : ∀ x ∈ m2 :: ms'', exactMT x = true :=
        fun x hx => hall x (List.mem_cons_of_mem _ hx)
      show pvStar (' ' :: (m ++ ' ' :: joinTok (m2 :: ms''))) = _
      have hp := parseMT_exact hm (' ' :: joinTok (m2 :: ms'')) (Or.inr ⟨_, rfl⟩)
      rw [pvStar_cons_some hp, ih (by simp) hall']
      rfl

theorem pvList_join (ms : List (List Char)) (h0 : ms ≠ [])
    (hall : ∀ m ∈ ms, exactMT m = true) :
    pvList (joinTok ms) = some (joinTok ms) := by
  match ms with
  | [m] =>
    show pvList m = some m
    have hp : parseMT (m ++ []) = some (m, []) :=
      parseMT_exact (hall m (List.mem_cons_self _ _)) [] (Or.inl rfl)
    rw [List.append_nil] at hp
    simp [pvList, hp, pvStar_nil]
  | m :: m2 :: ms'' =>
    show pvList (m ++ ' ' :: joinTok (m2 :: ms'')) = some (m ++ ' ' :: joinTok (m2 :: ms''))
    have hp := parseMT_exact (hall m (List.mem_cons_self _ _))
      (' ' :: joinTok (m2 :: ms'')) (Or.inr ⟨_, rfl⟩)
    have hstar := pvStar_join (m2 :: ms'') (by simp)
      (fun x hx => hall x (List.mem_cons_of_mem _ hx))
    simp [pvList, hp, hstar]

/-! ## Token-level pv search -/

/-- Token-level form of the pv scan: the pattern fires at the first
separator followed by the exact token pv, taking the greedy move-token list
from the text that follows. -/
def findPvTok : List (List Char) → Option (List Char)
  | [] => none
  | u :: ts =>
    if "pv".data = u then
      match pvList (joinTok ts) with
      | some p => some p
      | none => findPvTok ts
    else findPvTok ts

theorem matchPvAt_last {u : List Char} (hu : ' ' ∉ u) : matchPvAt (' ' :: u) = none := by
  have h1 : dropStart (' ' :: 'p' :: 'v' :: [' ']) (' ' :: u) = none := by
    show dropStart ("pv".data ++ [' ']) u = none
    exact dropStart_pat_nospace hu
  simp [matchPvAt, h1]

theorem matchPvAt_sepPv {u : List Char} (hu : ' ' ∉ u) (R : List Char) :
    matchPvAt (' ' :: (u ++ ' ' :: R)) = if "pv".data = u then pvList R else none := by
  have h1 : dropStart (' ' :: 'p' :: 'v' :: [' ']) (' ' :: (u ++ ' ' :: R)) =
      (if "pv".data = u then some R else none) := by
    show dropStart ("pv".data ++ [' ']) (u ++ ' ' :: R) = _
    exact dropStart_sep (by decide) hu R
  simp only [matchPvAt, h1]
  by_cases hupv : "pv".data = u
  · rw [if_pos hupv, if_pos hupv]
  · rw [if_neg hupv, if_neg hupv]

theorem findPv_join : ∀ (ts : List (List Char)) (t : List Char), ' ' ∉ t →
    (∀ x ∈ ts, x ≠ [] ∧ ' ' ∉ x) →
    findPv (joinTok (t :: ts)) = findPvTok ts := by
  intro ts
  induction ts with
  | nil =>
    intro t ht _
    exact findPv_nospace ht
  | cons u ts' ih =>
    intro t ht hts
    have hu : ' ' ∉ u := (hts u (List.mem_cons_self _ _)).2
    have hts' : ∀ x ∈ ts', x ≠ [] ∧ ' ' ∉ x := fun x hx => hts x (List.mem_cons_of_mem _ hx)
    show findPv (t ++ ' ' :: joinTok (u :: ts')) = findPvTok (u :: ts')
    rw [findPv_sep t _ ht]
    have hmv : matchPvAt (' ' :: joinTok (u :: ts')) =
        (if "pv".data = u then pvList (joinTok ts') else none) := by
      cases ts' with
      | nil =>
        show matchPvAt (' ' :: u) = _
        rw [matchPvAt_last hu]
        by_cases hupv : "pv".data = u
        · rw [if_pos hupv]
          rfl
        · rw [if_neg hupv]
      | cons w ts'' =>
        show matchPvAt (' ' :: (u ++ ' ' :: joinTok (w :: ts''))) = _
        rw [matchPvAt_sepPv hu]
    rw [hmv]
    by_cases hupv : "pv".data = u
    · rw [if_pos hupv]
      rcases hpl : pvList (joinTok ts') with _ | p
      · show (match (none : Option (List Char)) with
              | some p => some p
              | none => findPv (joinTok (u :: ts'))) = _
        rw [ih u hu hts']
        simp only [findPvTok]
        rw [if_pos hupv, hpl]
      · simp only [findPvTok]
        rw [if_pos hupv, hpl]
    · rw [if_neg hupv]
      show findPv (joinTok (u :: ts')) = _
      rw [ih u hu hts']
      simp only [findPvTok]
      rw [if_neg hupv]

/-! ## Separator lemmas for the diagnostic scanner -/

theorem matchDiagAt_sep {t : List Char} (ht : ' ' ∉ t) (rest : List Char) :
    matchDiagAt (t ++ ' ' :: rest) = if "info".data = t then diagTail rest else false := by
  have hsp : ' ' ∉ "info".data := by decide
  simp only [matchDiagAt, dropStart_sep hsp ht]
  by_cases he : "info".data = t
  · rw [if_pos he, if_pos he]
  · rw [if_neg he, if_neg he]

theorem matchDiagAt_space {s : List Char} (h : matchDiagAt s = true) : ' ' ∈ s := by
  unfold matchDiagAt at h
  split at h
  · rename_i r hds
    rw [dropStart_some_append hds]
    simp
  · cases h

theorem findDiag_nospace {s : List Char} (hs : ' ' ∉ s) : findDiag s = false := by
  induction s with
  | nil => rfl
  | cons c r ih =>
    have hr : ' ' ∉ r := fun h => hs (List.mem_cons_of_mem _ h)
    show (matchDiagAt (c :: r) || findDiag r) = false
    cases hm : matchDiagAt (c :: r)
    · simp [ih hr]
    · exact absurd (matchDiagAt_space hm) hs

theorem findDiag_sep (t rest : List Char) (ht : ' ' ∉ t) :
    findDiag (t ++ ' ' :: rest) =
      ((sfx "info".data t && diagTail rest) || findDiag rest) := by
  induction t with
  | nil =>
    have hmk : matchDiagAt (' ' :: rest) = false := by
      simp [matchDiagAt, dropStart]
    have hsf : sfx "info".data [] = false := by decide
    show (matchDiagAt (' ' :: rest) || findDiag rest) = _
    rw [hmk, hsf]
    simp
  | cons c t' ih =>
    have ht' : ' ' ∉ t' := fun h => ht (List.mem_cons_of_mem _ h)
    show (matchDiagAt ((c :: t') ++ ' ' :: rest) || findDiag (t' ++ ' ' :: rest)) = _
    rw [matchDiagAt_sep ht, ih ht']
    by_cases he : "info".data = c :: t'
    · have hsfx : sfx "info".data (c :: t') = true := by
        rw [he]
        exact sfx_self _
      have hlen : sfx "info".data t' = false := by
        by_contra hx
        rw [Bool.not_eq_false] at hx
        have h1 := sfx_le_length hx
        have h2 : ("info".data).length = t'.length + 1 := by
          rw [he]
          rfl
        omega
      rw [if_pos he, hsfx, hlen]
      simp
    · have hbeq : ("info".data == c :: t') = false := beq_eq_false_iff_ne.mpr he
      have hsfx : sfx "info".data (c :: t') = sfx "info".data t' := by
        show (("info".data == c :: t') || sfx "info".data t') = sfx "info".data t'
        rw [hbeq, Bool.false_or]
      rw [if_neg he, hsfx]
      simp

theorem diagTail_join (ts : List (List Char)) (hts : ∀ x ∈ ts, x ≠ [] ∧ ' ' ∉ x)
    (hstr : ∀ x ∈ ts, x ≠ "string".data) : diagTail (joinTok ts) = false := by
  match ts with
  | [] => rfl
  | [u] =>
    have hu : ' ' ∉ u := (hts u (List.mem_cons_self _ _)).2
    show diagTail u = false
    simp only [diagTail, dropStart_pat_nospace hu]
  | u :: w :: ts' =>
    have hu : ' ' ∉ u := (hts u (List.mem_cons_self _ _)).2
    have hne : u ≠ "string".data := hstr u (List.mem_cons_self _ _)
    have hstr2 : ' ' ∉ "string".data := by decide
    show diagTail (u ++ ' ' :: joinTok (w :: ts')) = false
    simp only [diagTail, dropStart_sep hstr2 hu]
    rw [if_neg (show ¬ ((['s', 't', 'r', 'i', 'n', 'g'] : List Char) = u) from
      fun h => hne h.symm)]

theorem findDiag_join : ∀ ts : List (List Char), (∀ x ∈ ts, x ≠ [] ∧ ' ' ∉ x) →
    (∀ x ∈ ts, x ≠ "string".data) → findDiag (joinTok ts) = false := by
  intro ts
  induction ts with
  | nil => intro _ _; rfl
  | cons t ts' ih =>
    intro hts hstr
    have ht : ' ' ∉ t := (hts t (List.mem_cons_self _ _)).2
    have hts' : ∀ x ∈ ts', x ≠ [] ∧ ' ' ∉ x := fun x hx => hts x (List.mem_cons_of_mem _ hx)
    have hstr' : ∀ x ∈ ts', x ≠ "string".data := fun x hx => hstr x (List.mem_cons_of_mem _ hx)
    cases ts' with
    | nil => exact findDiag_nospace ht
    | cons u ts'' =>
      show findDiag (t ++ ' ' :: joinTok (u :: ts'')) = false
      rw [findDiag_sep t _ ht, ih hts' hstr', diagTail_join (u :: ts'') hts' hstr']
      simp

/-! ## Segments of a well-formed info line -/

/-- Building block of an info line: a key-value field segment or the score
segment. -/
inductive Seg where
  | fld (key : List Char) (digits : List Char)
  | scr (ev : List Char) (sd : List Char)
deriving DecidableEq, Repr

/-- Tokens contributed by a segment. -/
def Seg.toks : Seg → List (List Char)
  | .fld k d => [k, d]
  | .scr ev sd => ["score".data, ev, sd]

/-- The seven required field keys of ParseInfo. -/
def sevenKeys : List (List Char) :=
  ["depth".data, "seldepth".data, "multipv".data, "nodes".data, "nps".data,
   "tbhits".data, "time".data]

/-- Well-formed segment: a field segment carries one of the seven keys and
a nonempty digit string; the score segment carries a cp or mate kind and a
signed integer token that the value pattern matches in full. -/
def SegWF : Seg → Prop
  | .fld k d => k ∈ sevenKeys ∧ d ≠ [] ∧ d.all isDigitC = true
  | .scr ev sd => (ev = "cp".data ∨ ev = "mate".data) ∧ sd ≠ [] ∧ ' ' ∉ sd ∧
      sdParse sd = some sd

/-- Tokens of a list of segments. -/
def segsToks : List Seg → List (List Char)
  | [] => []
  | s :: segs => s.toks ++ segsToks segs

/-- Move-token character class. -/
def moveChar (c : Char) : Bool := isFileC c || isDigitC c || isPromoC c

/-- Facts about a key needed to push the key-value scan through a line. -/
abbrev KeyOK (k : List Char) : Prop :=
  k ≠ [] ∧ ' ' ∉ k ∧
  (∃ c ∈ k, (isDigitC c || c = '-') = false) ∧
  (∃ c ∈ k, moveChar c = false) ∧
  sfx k "score".data = false ∧ sfx k "cp".data = false ∧ sfx k "mate".data = false ∧
  sfx k "pv".data = false ∧ sfx k "info".data = false

theorem tw_eq_self_all {p : Char → Bool} {l : List Char} (h : l.takeWhile p = l) :
    l.all p = true := by
  induction l with
  | nil => rfl
  | cons c r ih =>
    cases hc : p c
    · simp [List.takeWhile_cons, hc] at h
    · simp only [List.takeWhile_cons, hc, if_true, List.cons.injEq, true_and] at h
      simp [hc, ih h]

theorem sdParse_self_class {sd : List Char} (h : sdParse sd = some sd) :
    sd.all (fun c => isDigitC c || c = '-') = true := by
  match sd with
  | [] => rfl
  | c :: r =>
    by_cases hc : c = '-'
    · subst hc
      rw [show sdParse ('-' :: r) = (if r.takeWhile isDigitC = [] then none
          else some ('-' :: r.takeWhile isDigitC)) from by simp [sdParse]] at h
      by_cases htw : r.takeWhile isDigitC = []
      · rw [if_pos htw] at h
        cases h
      · rw [if_neg htw] at h
        injection h with h2
        injection h2 with _ h3
        have hall := tw_eq_self_all h3
        refine List.all_eq_true.mpr ?_
        intro x hx
        simp only [List.mem_cons] at hx
        rcases hx with h4 | h4
        · simp [h4]
        · simp [List.all_eq_true.mp hall x h4]
    · rw [show sdParse (c :: r) = (if (c :: r).takeWhile isDigitC = [] then none
          else some ((c :: r).takeWhile isDigitC)) from by simp [sdParse, hc]] at h
      by_cases htw : (c :: r).takeWhile isDigitC = []
      · rw [if_pos htw] at h
        cases h
      · rw [if_neg htw] at h
        injection h with h2
        have hall := tw_eq_self_all h2
        refine List.all_eq_true.mpr ?_
        intro x hx
        simp [List.all_eq_true.mp hall x hx]

theorem all_digits_class {d : List Char} (h : d.all isDigitC = true) :
    d.all (fun c => isDigitC c || c = '-') = true := by
  refine List.all_eq_true.mpr ?_
  intro x hx
  simp [List.all_eq_true.mp h x hx]

theorem ne_of_class {t v : List Char} {p : Char → Bool} (ht : t.all p = true)
    (hv : ∃ c ∈ v, p c = false) : t ≠ v := by
  intro h
  subst h
  obtain ⟨c, hc, hcf⟩ := hv
  have := List.all_eq_true.mp ht c hc
  rw [this] at hcf
  cases hcf

theorem exactMT_wf {m : List Char} (hm : exactMT m = true) :
    m ≠ [] ∧ ' ' ∉ m ∧ m.all moveChar = true := by
  match m, hm with
  | [f1, d1, f2, d2], hm =>
    have hc : (isFileC f1 && isDigitC d1 && isFileC f2 && isDigitC d2) = true := hm
    simp only [Bool.and_eq_true] at hc
    obtain ⟨⟨⟨ha, hb⟩, hc0⟩, hd⟩ := hc
    refine ⟨by simp, ?_, ?_⟩
    · intro hmem
      simp only [List.mem_cons, List.not_mem_nil, or_false] at hmem
      rcases hmem with h | h | h | h
      · subst h; exact absurd ha (by decide)
      · subst h; exact absurd hb (by decide)
      · subst h; exact absurd hc0 (by decide)
      · subst h; exact absurd hd (by decide)
    · simp [moveChar, ha, hb, hc0, hd]
  | [f1, d1, f2, d2, p], hm =>
    have hc : (isFileC f1 && isDigitC d1 && isFileC f2 && isDigitC d2 && isPromoC p)
        = true := hm
    simp only [Bool.and_eq_true] at hc
    obtain ⟨⟨⟨⟨ha, hb⟩, hc0⟩, hd⟩, hp⟩ := hc
    refine ⟨by simp, ?_, ?_⟩
    · intro hmem
      simp only [List.mem_cons, List.not_mem_nil, or_false] at hmem
      rcases hmem with h | h | h | h | h
      · subst h; exact absurd ha (by decide)
      · subst h; exact absurd hb (by decide)
      · subst h; exact absurd hc0 (by decide)
      · subst h; exact absurd hd (by decide)
      · subst h; exact absurd hp (by decide)
    · simp [moveChar, ha, hb, hc0, hd, hp]

theorem segToks_wf {s : Seg} (h : SegWF s) : ∀ t ∈ s.toks, t ≠ [] ∧ ' ' ∉ t := by
  match s with
  | .fld k d =>
    obtain ⟨hk, hd0, hdall⟩ := h
    intro t ht
    simp only [Seg.toks, List.mem_cons, List.not_mem_nil, or_false] at ht
    rcases ht with h1 | h1
    · subst h1
      simp only [sevenKeys, List.mem_cons, List.not_mem_nil, or_false] at hk
      rcases hk with h | h | h | h | h | h | h <;> (subst h; exact ⟨by decide, by decide⟩)
    · subst h1
      exact ⟨hd0, all_of_digits_nospace hdall⟩
  | .scr ev sd =>
    obtain ⟨hev, hsd0, hsdsp, _⟩ := h
    intro t ht
    simp only [Seg.toks, List.mem_cons, List.not_mem_nil, or_false] at ht
    rcases ht with h1 | h1 | h1
    · subst h1
      exact ⟨by decide, by decide⟩
    · subst h1
      rcases hev with h | h <;> (subst h; exact ⟨by decide, by decide⟩)
    · subst h1
      exact ⟨hsd0, hsdsp⟩

theorem segsToks_wf : ∀ segs : List Seg, (∀ s ∈ segs, SegWF s) →
    ∀ t ∈ segsToks segs, t ≠ [] ∧ ' ' ∉ t := by
  intro segs
  induction segs with
  | nil => intro _ t ht; cases ht
  | cons s segs' ih =>
    intro hw t ht
    rw [show segsToks (s :: segs') = s.toks ++ segsToks segs' from rfl,
      List.mem_append] at ht
    rcases ht with h | h
    · exact segToks_wf (hw s (List.mem_cons_self _ _)) t h
    · exact ih (fun x hx => hw x (List.mem_cons_of_mem _ hx)) t h

/-! ## First-match computations over segments -/

/-- First field segment that the key-value pattern for the given key fires
on (the key is a suffix of the field's key token). -/
def firstKV (k : List Char) : List Seg → Option (List Char)
  | [] => none
  | .fld k' d :: segs => if sfx k k' = true then some d else firstKV k segs
  | .scr _ _ :: segs => firstKV k segs

/-- First score segment. -/
def firstScore : List Seg → Option (List Char × List Char)
  | [] => none
  | .fld _ _ :: segs => firstScore segs
  | .scr ev sd :: segs => some (ev, sd)

theorem key_facts {k' : List Char} (h : k' ∈ sevenKeys) :
    sfx "score".data k' = false ∧ ¬ ("pv".data = k') ∧ k' ≠ "string".data ∧ KeyOK k' := by
  simp only [sevenKeys, List.mem_cons, List.not_mem_nil, or_false] at h
  rcases h with h | h | h | h | h | h | h <;>
    (subst h; exact ⟨by decide, by decide, by decide, by decide⟩)

theorem findKVtok_flat {k : List Char} (hK : KeyOK k) :
    ∀ segs : List Seg, (∀ s ∈ segs, SegWF s) → ∀ rest : List (List Char),
      findKVtok k (segsToks segs ++ rest) =
        match firstKV k segs with
        | some d => some d
        | none => findKVtok k rest := by
  obtain ⟨hk0, hksp, hkdig, hkmv, hkscore, hkcp, hkmate, hkpv, hkinfo⟩ := hK
  intro segs
  induction segs with
  | nil => intro _ rest; rfl
  | cons s segs' ih =>
    intro hw rest
    have hws := hw s (List.mem_cons_self _ _)
    have hw' : ∀ x ∈ segs', SegWF x := fun x hx => hw x (List.mem_cons_of_mem _ hx)
    match s with
    | .fld k' d =>
      obtain ⟨hk', hd0, hdall⟩ := hws
      have htw : d.takeWhile isDigitC = d := takeWhile_all_eq hdall
      have hdskip : sfx k d = false := sfx_false_of_class hkdig (all_digits_class hdall)
      show findKVtok k (k' :: d :: (segsToks segs' ++ rest)) = _
      by_cases hs : sfx k k' = true
      · rw [show findKVtok k (k' :: d :: (segsToks segs' ++ rest)) =
            (if sfx k k' = true ∧ d.takeWhile isDigitC ≠ [] then some (d.takeWhile isDigitC)
             else findKVtok k (d :: (segsToks segs' ++ rest))) from rfl,
          if_pos (And.intro hs (by rw [htw]; exact hd0)), htw,
          show firstKV k (.fld k' d :: segs') =
            (if sfx k k' = true then some d else firstKV k segs') from rfl, if_pos hs]
      · have hsf : sfx k k' = false := by
          cases hx : sfx k k'
          · rfl
          · exact absurd hx hs
        rw [show findKVtok k (k' :: d :: (segsToks segs' ++ rest)) =
            (if sfx k k' = true ∧ d.takeWhile isDigitC ≠ [] then some (d.takeWhile isDigitC)
             else findKVtok k (d :: (segsToks segs' ++ rest))) from rfl,
          if_neg (by simp [hsf]), findKVtok_skip hdskip, ih hw' rest,
          show firstKV k (.fld k' d :: segs') =
            (if sfx k k' = true then some d else firstKV k segs') from rfl,
          if_neg (by simp [hsf])]
    | .scr ev sd =>
      obtain ⟨hev, hsd0, hsdsp, hsdp⟩ := hws
      have hevskip : sfx k ev = false := by
        rcases hev with h | h
        · rw [h]; exact hkcp
        · rw [h]; exact hkmate
      have hsdskip : sfx k sd = false :=
        sfx_false_of_class hkdig (sdParse_self_class hsdp)
      show findKVtok k ("score".data :: ev :: sd :: (segsToks segs' ++ rest)) = _
      rw [findKVtok_skip hkscore, findKVtok_skip hevskip, findKVtok_skip hsdskip,
        ih hw' rest]
      rfl

theorem findScoreTok_skip {t : List Char} (h : sfx "score".data t = false)
    (ts : List (List Char)) : findScoreTok (t :: ts) = findScoreTok ts := by
  simp [findScoreTok, h]

theorem findScoreTok_flat : ∀ segs : List Seg, (∀ s ∈ segs, SegWF s) →
    ∀ rest : List (List Char),
      findScoreTok (segsToks segs ++ rest) =
        match firstScore segs with
        | some p => some p
        | none => findScoreTok rest := by
  intro segs
  induction segs with
  | nil => intro _ rest; rfl
  | cons s segs' ih =>
    intro hw rest
    have hws := hw s (List.mem_cons_self _ _)
    have hw' : ∀ x ∈ segs', SegWF x := fun x hx => hw x (List.mem_cons_of_mem _ hx)
    match s with
    | .fld k' d =>
      obtain ⟨hk', hd0, hdall⟩ := hws
      have h1 : sfx "score".data k' = false := (key_facts hk').1
      have h2 : sfx "score".data d = false :=
        sfx_false_of_class (by decide) (all_digits_class hdall)
      show findScoreTok (k' :: d :: (segsToks segs' ++ rest)) = _
      rw [findScoreTok_skip h1, findScoreTok_skip h2, ih hw' rest]
      rfl
    | .scr ev sd =>
      obtain ⟨hev, hsd0, hsdsp, hsdp⟩ := hws
      have hev2 : ev ≠ [] ∧ ev.all isWordC = true := by
        rcases hev with h | h <;> (subst h; exact ⟨by decide, by decide⟩)
      show findScoreTok ("score".data :: ev :: sd :: (segsToks segs' ++ rest)) = _
      rw [show findScoreTok ("score".data :: ev :: sd :: (segsToks segs' ++ rest)) =
          (if sfx "score".data "score".data = true then
            match scoreTailTok (ev :: sd :: (segsToks segs' ++ rest)) with
            | some p => some p
            | none => findScoreTok (ev :: sd :: (segsToks segs' ++ rest))
           else findScoreTok (ev :: sd :: (segsToks segs' ++ rest))) from rfl,
        if_pos (sfx_self _),
        show scoreTailTok (ev :: sd :: (segsToks segs' ++ rest)) =
          (if ev ≠ [] ∧ ev.all isWordC = true then
            match sdParse sd with
            | some sd2 => some (ev, sd2)
            | none => none
           else none) from rfl, if_pos hev2, hsdp]
      rfl

theorem findPvTok_skip {u : List Char} (h : ¬ ("pv".data = u)) (ts : List (List Char)) :
    findPvTok (u :: ts) = findPvTok ts := by
  simp [findPvTok, h]

theorem findPvTok_flat : ∀ segs : List Seg, (∀ s ∈ segs, SegWF s) →
    ∀ rest : List (List Char), findPvTok (segsToks segs ++ rest) = findPvTok rest := by
  intro segs
  induction segs with
  | nil => intro _ rest; rfl
  | cons s segs' ih =>
    intro hw rest
    have hws := hw s (List.mem_cons_self _ _)
    have hw' : ∀ x ∈ segs', SegWF x := fun x hx => hw x (List.mem_cons_of_mem _ hx)
    match s with
    | .fld k' d =>
      obtain ⟨hk', hd0, hdall⟩ := hws
      have h1 : ¬ ("pv".data = k') := (key_facts hk').2.1
      have h2 : ¬ ("pv".data = d) :=
        fun h => (ne_of_class (all_digits_class hdall) (by decide)) h.symm
      show findPvTok (k' :: d :: (segsToks segs' ++ rest)) = _
      rw [findPvTok_skip h1, findPvTok_skip h2, ih hw' rest]
    | .scr ev sd =>
      obtain ⟨hev, hsd0, hsdsp, hsdp⟩ := hws
      have h1 : ¬ ("pv".data = "score".data) := by decide
      have h2 : ¬ ("pv".data = ev) := by
        rcases hev with h | h <;> (subst h; decide)
      have h3 : ¬ ("pv".data = sd) :=
        fun h => (ne_of_class (sdParse_self_class hsdp) (by decide)) h.symm
      show findPvTok ("score".data :: ev :: sd :: (segsToks segs' ++ rest)) = _
      rw [findPvTok_skip h1, findPvTok_skip h2, findPvTok_skip h3, ih hw' rest]

theorem findKVtok_moves {k : List Char} (hkmv : ∃ c ∈ k, moveChar c = false) :
    ∀ ms : List (List Char), (∀ m ∈ ms, exactMT m = true) → findKVtok k ms = none := by
  intro ms
  induction ms with
  | nil => intro _; rfl
  | cons m ms' ih =>
    intro hall
    have h := (exactMT_wf (hall m (List.mem_cons_self _ _))).2.2
    rw [findKVtok_skip (sfx_false_of_class hkmv h)]
    exact ih (fun x hx => hall x (List.mem_cons_of_mem _ hx))

theorem findScoreTok_moves : ∀ ms : List (List Char),
    (∀ m ∈ ms, exactMT m = true) → findScoreTok ms = none := by
  intro ms
  induction ms with
  | nil => intro _; rfl
  | cons m ms' ih =>
    intro hall
    have h := (exactMT_wf (hall m (List.mem_cons_self _ _))).2.2
    rw [findScoreTok_skip (sfx_false_of_class (by decide) h)]
    exact ih (fun x hx => hall x (List.mem_cons_of_mem _ hx))

/-! ## Constructed info lines and their scans -/

/-- Token list of a constructed info line: the info keyword, the segments,
then the trailing pv keyword and move tokens. -/
def infoToks (segs : List Seg) (moves : List (List Char)) : List (List Char) :=
  "info".data :: (segsToks segs ++ "pv".data :: moves)

/-- A constructed info line: its tokens joined by single spaces. -/
def infoLine (segs : List Seg) (moves : List (List Char)) : String :=
  String.mk (joinTok (infoToks segs moves))

theorem infoToks_wf (segs : List Seg) (moves : List (List Char))
    (hsegs : ∀ s ∈ segs, SegWF s) (hmv : ∀ m ∈ moves, exactMT m = true) :
    ∀ t ∈ infoToks segs moves, t ≠ [] ∧ ' ' ∉ t := by
  intro t ht
  simp only [infoToks, List.mem_cons, List.mem_append] at ht
  rcases ht with h | (h | (h | h))
  · subst h
    exact ⟨by decide, by decide⟩
  · exact segsToks_wf segs hsegs t h
  · subst h
    exact ⟨by decide, by decide⟩
  · have h2 := exactMT_wf (hmv t h)
    exact ⟨h2.1, h2.2.1⟩

theorem segsToks_nostring : ∀ segs : List Seg, (∀ s ∈ segs, SegWF s) →
    ∀ t ∈ segsToks segs, t ≠ "string".data := by
  intro segs
  induction segs with
  | nil => intro _ t ht; cases ht
  | cons s segs' ih =>
    intro hw t ht
    rw [show segsToks (s :: segs') = s.toks ++ segsToks segs' from rfl,
      List.mem_append] at ht
    rcases ht with h | h
    · have hws := hw s (List.mem_cons_self _ _)
      match s, hws with
      | .fld k' d, hws =>
        simp only [Seg.toks, List.mem_cons, List.not_mem_nil, or_false] at h
        rcases h with h1 | h1
        · subst h1
          exact (key_facts hws.1).2.2.1
        · subst h1
          exact ne_of_class (all_digits_class hws.2.2) (by decide)
      | .scr ev sd, hws =>
        simp only [Seg.toks, List.mem_cons, List.not_mem_nil, or_false] at h
        rcases h with h1 | h1 | h1
        · subst h1
          decide
        · subst h1
          rcases hws.1 with h2 | h2 <;> (subst h2; decide)
        · subst h1
          exact ne_of_class (sdParse_self_class hws.2.2.2) (by decide)
    · exact ih (fun x hx => hw x (List.mem_cons_of_mem _ hx)) t h

theorem findDiag_infoLine (segs : List Seg) (moves : List (List Char))
    (hsegs : ∀ s ∈ segs, SegWF s) (hmv : ∀ m ∈ moves, exactMT m = true) :
    findDiag (joinTok (infoToks segs moves)) = false := by
  apply findDiag_join
  · exact infoToks_wf segs moves hsegs hmv
  · intro t ht
    simp only [infoToks, List.mem_cons, List.mem_append] at ht
    rcases ht with h | (h | (h | h))
    · subst h
      decide
    · exact segsToks_nostring segs hsegs t h
    · subst h
      decide
    · exact ne_of_class (exactMT_wf (hmv t h)).2.2 (by decide)

theorem findPv_infoLine (segs : List Seg) (moves : List (List Char))
    (hsegs : ∀ s ∈ segs, SegWF s) (hmv0 : moves ≠ [])
    (hmv : ∀ m ∈ moves, exactMT m = true) :
    findPv (joinTok (infoToks segs moves)) = some (joinTok moves) := by
  have hwf := infoToks_wf segs moves hsegs hmv
  have hwt : ∀ x ∈ segsToks segs ++ "pv".data :: moves, x ≠ [] ∧ ' ' ∉ x :=
    fun x hx => hwf x (List.mem_cons_of_mem _ hx)
  rw [show joinTok (infoToks segs moves) =
      joinTok ("info".data :: (segsToks segs ++ "pv".data :: moves)) from rfl,
    findPv_join (segsToks segs ++ "pv".data :: moves) "info".data (by decide) hwt,
    findPvTok_flat segs hsegs,
    show findPvTok ("pv".data :: moves) =
      (if "pv".data = "pv".data then
        match pvList (joinTok moves) with
        | some p => some p
        | none => findPvTok moves
       else findPvTok moves) from rfl, if_pos rfl, pvList_join moves hmv0 hmv]

theorem findScore_infoLine (segs : List Seg) (moves : List (List Char))
    (hsegs : ∀ s ∈ segs, SegWF s) (hmv : ∀ m ∈ moves, exactMT m = true) :
    findScore (joinTok (infoToks segs moves)) = firstScore segs := by
  rw [findScore_join (infoToks segs moves) (infoToks_wf segs moves hsegs hmv)]
  show findScoreTok ("info".data :: (segsToks segs ++ "pv".data :: moves)) = _
  rw [findScoreTok_skip (by decide), findScoreTok_flat segs hsegs]
  have htail : findScoreTok ("pv".data :: moves) = none := by
    rw [findScoreTok_skip (by decide)]
    exact findScoreTok_moves moves hmv
  rcases hfs : firstScore segs with _ | p
  · rw [htail]
  · rfl

theorem findKV_infoLine {k : List Char} (hK : KeyOK k) (segs : List Seg)
    (moves : List (List Char)) (hsegs : ∀ s ∈ segs, SegWF s)
    (hmv : ∀ m ∈ moves, exactMT m = true) :
    findKV k (joinTok (infoToks segs moves)) = firstKV k segs := by
  rw [findKV_join hK.1 hK.2.1 (infoToks segs moves) (infoToks_wf segs moves hsegs hmv)]
  show findKVtok k ("info".data :: (segsToks segs ++ "pv".data :: moves)) = _
  rw [findKVtok_skip hK.2.2.2.2.2.2.2.2, findKVtok_flat hK segs hsegs]
  have htail : findKVtok k ("pv".data :: moves) = none := by
    rw [findKVtok_skip hK.2.2.2.2.2.2.2.1]
    exact findKVtok_moves hK.2.2.2.1 moves hmv
  rcases hfk : firstKV k segs with _ | d
  · rw [htail]
  · rfl

/-! ## Evaluation of goAtoi on scanned captures -/

/-- Integer value of a signed digit token. -/
def sdVal (sd : List Char) : Int :=
  match sd with
  | [] => 0
  | c :: r => if c = '-' then -(digitsVal r : Int) else (digitsVal (c :: r) : Int)

/-- Range condition of strconv.Atoi on a signed digit token. -/
def sdBound (sd : List Char) : Bool :=
  match sd with
  | [] => true
  | c :: r =>
    if c = '-' then decide (digitsVal r ≤ 2 ^ 63)
    else decide (digitsVal (c :: r) < 2 ^ 63)

theorem goAtoi_digits {d : List Char} (h0 : d ≠ []) (hall : d.all isDigitC = true)
    (hb : digitsVal d < 2 ^ 63) : goAtoi d = .ok (digitsVal d) := by
  match d with
  | [] => exact absurd rfl h0
  | c :: r =>
    have hcd : isDigitC c = true := by
      have := List.all_eq_true.mp hall c (List.mem_cons_self _ _)
      exact this
    have hc1 : ¬ (c = '-') := by
      intro h
      subst h
      exact absurd hcd (by decide)
    have hc2 : ¬ (c = '+') := by
      intro h
      subst h
      exact absurd hcd (by decide)
    simp only [goAtoi, if_neg hc1, if_neg hc2, if_pos hall, if_pos hb]

theorem goAtoi_sdParse {sd : List Char} (h : sdParse sd = some sd) (hb : sdBound sd = true) :
    goAtoi sd = .ok (sdVal sd) := by
  match sd with
  | [] => simp [sdParse] at h
  | c :: r =>
    by_cases hc : c = '-'
    · subst hc
      rw [show sdParse ('-' :: r) = (if r.takeWhile isDigitC = [] then none
          else some ('-' :: r.takeWhile isDigitC)) from by simp [sdParse]] at h
      by_cases htw : r.takeWhile isDigitC = []
      · rw [if_pos htw] at h
        cases h
      · rw [if_neg htw] at h
        injection h with h2
        injection h2 with _ h3
        have hall := tw_eq_self_all h3
        have hr0 : r ≠ [] := by
          intro he
          rw [he] at htw
          exact htw rfl
        have hbv : digitsVal r ≤ 2 ^ 63 := by
          rw [show sdBound ('-' :: r) = decide (digitsVal r ≤ 2 ^ 63)
            from by simp [sdBound]] at hb
          exact of_decide_eq_true hb
        rw [show goAtoi ('-' :: r) = (if r ≠ [] ∧ r.all isDigitC = true then
            if digitsVal r ≤ 2 ^ 63 then Except.ok (-(digitsVal r : Int))
            else Except.error "strconv.Atoi: value out of range"
          else Except.error "strconv.Atoi: invalid syntax") from by simp [goAtoi]]
        rw [if_pos (And.intro hr0 hall), if_pos hbv,
          show sdVal ('-' :: r) = -(digitsVal r : Int) from by simp [sdVal]]
    · rw [show sdParse (c :: r) = (if (c :: r).takeWhile isDigitC = [] then none
          else some ((c :: r).takeWhile isDigitC)) from by simp [sdParse, hc]] at h
      by_cases htw : (c :: r).takeWhile isDigitC = []
      · rw [if_pos htw] at h
        cases h
      · rw [if_neg htw] at h
        injection h with h2
        have hall := tw_eq_self_all h2
        have hcd : isDigitC c = true := by
          have := List.all_eq_true.mp hall c (List.mem_cons_self _ _)
          exact this
        have hc2 : ¬ (c = '+') := by
          intro he
          subst he
          exact absurd hcd (by decide)
        have hbv : digitsVal (c :: r) < 2 ^ 63 := by
          rw [show sdBound (c :: r) = decide (digitsVal (c :: r) < 2 ^ 63)
            from by simp [sdBound, hc]] at hb
          exact of_decide_eq_true hb
        rw [show goAtoi (c :: r) = (if (c :: r).all isDigitC = true then
            if digitsVal (c :: r) < 2 ^ 63 then Except.ok (digitsVal (c :: r) : Int)
            else Except.error "strconv.Atoi: value out of range"
          else Except.error "strconv.Atoi: invalid syntax") from by simp [goAtoi, hc, hc2]]
        rw [if_pos hall, if_pos hbv,
          show sdVal (c :: r) = (digitsVal (c :: r) : Int) from by simp [sdVal, hc]]

/-! ## Computing firstKV and firstScore from the segment structure -/

theorem firstKV_append (k : List Char) : ∀ l1 l2 : List Seg,
    firstKV k (l1 ++ l2) =
      match firstKV k l1 with
      | some d => some d
      | none => firstKV k l2 := by
  intro l1 l2
  induction l1 with
  | nil => rfl
  | cons s l1' ih =>
    match s with
    | .fld k' d =>
      show firstKV k (.fld k' d :: (l1' ++ l2)) = _
      rw [show firstKV k (.fld k' d :: (l1' ++ l2)) =
          (if sfx k k' = true then some d else firstKV k (l1' ++ l2)) from rfl,
        show firstKV k (.fld k' d :: l1') =
          (if sfx k k' = true then some d else firstKV k l1') from rfl]
      by_cases hs : sfx k k' = true
      · rw [if_pos hs, if_pos hs]
      · rw [if_neg hs, if_neg hs, ih]
    | .scr ev sd =>
      show firstKV k (.scr ev sd :: (l1' ++ l2)) = _
      rw [show firstKV k (.scr ev sd :: (l1' ++ l2)) = firstKV k (l1' ++ l2) from rfl,
        show firstKV k (.scr ev sd :: l1') = firstKV k l1' from rfl, ih]

theorem firstKV_of_mem {k dk : List Char} : ∀ l : List Seg, Seg.fld k dk ∈ l →
    (∀ k' d, Seg.fld k' d ∈ l → sfx k k' = true → k' = k ∧ d = dk) →
    firstKV k l = some dk := by
  intro l
  induction l with
  | nil => intro h _; cases h
  | cons s l' ih =>
    intro hmem hother
    match s with
    | .fld k' d =>
      by_cases hs : sfx k k' = true
      · obtain ⟨h1, h2⟩ := hother k' d (List.mem_cons_self _ _) hs
        rw [show firstKV k (.fld k' d :: l') =
            (if sfx k k' = true then some d else firstKV k l') from rfl, if_pos hs, h2]
      · have hmem' : Seg.fld k dk ∈ l' := by
          rcases List.mem_cons.mp hmem with h | h
          · injection h with hk _
            rw [← hk] at hs
            exact absurd (sfx_self k) hs
          · exact h
        rw [show firstKV k (.fld k' d :: l') =
            (if sfx k k' = true then some d else firstKV k l') from rfl, if_neg hs]
        exact ih hmem' (fun k2 d2 hm hsx => hother k2 d2 (List.mem_cons_of_mem _ hm) hsx)
    | .scr ev sd =>
      have hmem' : Seg.fld k dk ∈ l' := by
        rcases List.mem_cons.mp hmem with h | h
        · exact Seg.noConfusion h
        · exact h
      rw [show firstKV k (.scr ev sd :: l') = firstKV k l' from rfl]
      exact ih hmem' (fun k2 d2 hm hsx => hother k2 d2 (List.mem_cons_of_mem _ hm) hsx)

theorem firstKV_none_of {k : List Char} : ∀ l : List Seg,
    (∀ k' d, Seg.fld k' d ∈ l → sfx k k' = false) → firstKV k l = none := by
  intro l
  induction l with
  | nil => intro _; rfl
  | cons s l' ih =>
    intro hother
    match s with
    | .fld k' d =>
      have hsf := hother k' d (List.mem_cons_self _ _)
      rw [show firstKV k (.fld k' d :: l') =
          (if sfx k k' = true then some d else firstKV k l') from rfl,
        if_neg (by simp [hsf])]
      exact ih (fun k2 d2 hm => hother k2 d2 (List.mem_cons_of_mem _ hm))
    | .scr ev sd =>
      rw [show firstKV k (.scr ev sd :: l') = firstKV k l' from rfl]
      exact ih (fun k2 d2 hm => hother k2 d2 (List.mem_cons_of_mem _ hm))

theorem firstScore_of_mem {ev sd : List Char} : ∀ l : List Seg, Seg.scr ev sd ∈ l →
    (∀ ev' sd', Seg.scr ev' sd' ∈ l → ev' = ev ∧ sd' = sd) →
    firstScore l = some (ev, sd) := by
  intro l
  induction l with
  | nil => intro h _; cases h
  | cons s l' ih =>
    intro hmem hother
    match s with
    | .fld k' d =>
      have hmem' : Seg.scr ev sd ∈ l' := by
        rcases List.mem_cons.mp hmem with h | h
        · exact Seg.noConfusion h
        · exact h
      rw [show firstScore (.fld k' d :: l') = firstScore l' from rfl]
      exact ih hmem' (fun e2 s2 hm => hother e2 s2 (List.mem_cons_of_mem _ hm))
    | .scr ev' sd' =>
      obtain ⟨h1, h2⟩ := hother ev' sd' (List.mem_cons_self _ _)
      rw [show firstScore (.scr ev' sd' :: l') = some (ev', sd') from rfl, h1, h2]

/-- If some field segment carries a key that the scan key matches, the
first-key-value computation returns a value. -/
theorem firstKV_isSome_of_mem {k k0 d0 : List Char} : ∀ l : List Seg,
    Seg.fld k0 d0 ∈ l → sfx k k0 = true → ∃ d, firstKV k l = some d := by
  intro l
  induction l with
  | nil =>
    intro h _
    exact absurd h (List.not_mem_nil _)
  | cons s rest ih =>
    intro h hs
    match s with
    | Seg.fld k2 d2 =>
      by_cases h2 : sfx k k2 = true
      · exact ⟨d2, by
          show (if sfx k k2 = true then some d2 else firstKV k rest) = some d2
          rw [if_pos h2]⟩
      · have hmem : Seg.fld k0 d0 ∈ rest := by
          rcases List.mem_cons.mp h with he | hm
          · exfalso
            injection he with hk hd
            rw [hk] at hs
            exact h2 hs
          · exact hm
        obtain ⟨d, hd⟩ := ih hmem hs
        exact ⟨d, by
          show (if sfx k k2 = true then some d2 else firstKV k rest) = some d
          rw [if_neg h2, hd]⟩
    | Seg.scr e2 s2 =>
      have hmem : Seg.fld k0 d0 ∈ rest := by
        rcases List.mem_cons.mp h with he | hm
        · exact Seg.noConfusion he
        · exact hm
      obtain ⟨d, hd⟩ := ih hmem hs
      exact ⟨d, hd⟩

/-- The value the first-key-value computation returns comes from a field
segment of the list whose key the scan key matches. -/
theorem firstKV_mem_of_some {k d : List Char} : ∀ l : List Seg,
    firstKV k l = some d → ∃ k2, Seg.fld k2 d ∈ l ∧ sfx k k2 = true := by
  intro l
  induction l with
  | nil =>
    intro h
    exact absurd h (by simp [firstKV])
  | cons s rest ih =>
    intro h
    match s with
    | Seg.fld k2 d2 =>
      rw [show firstKV k (Seg.fld k2 d2 :: rest) =
          (if sfx k k2 = true then some d2 else firstKV k rest) from rfl] at h
      by_cases h2 : sfx k k2 = true
      · rw [if_pos h2] at h
        injection h with h3
        exact ⟨k2, by rw [← h3]; exact List.mem_cons_self _ _, h2⟩
      · rw [if_neg h2] at h
        obtain ⟨k3, hm, hs⟩ := ih h
        exact ⟨k3, List.mem_cons_of_mem _ hm, hs⟩
    | Seg.scr e2 s2 =>
      obtain ⟨k3, hm, hs⟩ := ih h
      exact ⟨k3, List.mem_cons_of_mem _ hm, hs⟩

/-- If a score segment is present, the first-score computation returns a
pair. -/
theorem firstScore_isSome_of_mem {ev sd : List Char} : ∀ l : List Seg,
    Seg.scr ev sd ∈ l → ∃ p, firstScore l = some p := by
  intro l
  induction l with
  | nil =>
    intro h
    exact absurd h (List.not_mem_nil _)
  | cons s rest ih =>
    intro h
    match s with
    | Seg.fld k2 d2 =>
      have hmem : Seg.scr ev sd ∈ rest := by
        rcases List.mem_cons.mp h with he | hm
        · exact Seg.noConfusion he
        · exact hm
      exact ih hmem
    | Seg.scr e2 s2 => exact ⟨(e2, s2), rfl⟩

/-- The pair the first-score computation returns is a score segment of the
list. -/
theorem firstScore_mem_of_some {p : List Char × List Char} : ∀ l : List Seg,
    firstScore l = some p → Seg.scr p.1 p.2 ∈ l := by
  intro l
  induction l with
  | nil =>
    intro h
    exact absurd h (by simp [firstScore])
  | cons s rest ih =>
    intro h
    match s with
    | Seg.fld k2 d2 => exact List.mem_cons_of_mem _ (ih h)
    | Seg.scr e2 s2 =>
      have h2 : (some (e2, s2) : Option (List Char × List Char)) = some p := h
      injection h2 with h3
      rw [← h3]
      exact List.mem_cons_self _ _

/-- On a well-formed bounded segment list, a present key scans to a value
that the integer conversion accepts. -/
theorem key_parses {segs : List Seg} (hwf : ∀ s ∈ segs, SegWF s)
    (hbound : ∀ k2 d, Seg.fld k2 d ∈ segs → digitsVal d < 2 ^ 63)
    (k : List Char) (hpres : ∃ d, Seg.fld k d ∈ segs) :
    ∃ d, firstKV k segs = some d ∧ goAtoi d = .ok ((digitsVal d : Int)) := by
  obtain ⟨d0, hd0⟩ := hpres
  obtain ⟨d, hd⟩ := firstKV_isSome_of_mem segs hd0 (sfx_self k)
  obtain ⟨k2, hm, hs2⟩ := firstKV_mem_of_some segs hd
  have hw := hwf _ hm
  exact ⟨d, hd, goAtoi_digits hw.2.1 hw.2.2 (hbound k2 d hm)⟩

/-- On a well-formed bounded segment list, a present score segment scans to
a pair whose value the integer conversion accepts. -/
theorem score_parses {segs : List Seg} (hwf : ∀ s ∈ segs, SegWF s)
    (hsb : ∀ ev sd, Seg.scr ev sd ∈ segs → sdBound sd = true)
    (hscr : ∃ ev sd, Seg.scr ev sd ∈ segs) :
    ∃ ev sd, firstScore segs = some (ev, sd) ∧ goAtoi sd = .ok (sdVal sd) := by
  obtain ⟨ev0, sd0, h0⟩ := hscr
  obtain ⟨p, hp⟩ := firstScore_isSome_of_mem segs h0
  have hm := firstScore_mem_of_some segs hp
  have hw := hwf _ hm
  exact ⟨p.1, p.2, hp, goAtoi_sdParse hw.2.2.2 (hsb _ _ hm)⟩

/-- Claim C2 (amended): for every well-formed info-shaped line whose score
and pv groups are present but in which one of the six fields seldepth,
multipv, nodes, nps, tbhits, time is missing (no token of the line matches
that field's pattern) while all the other fields are present, ParseInfo
returns an error naming the missing field; the particular case of the
original claim about a line with seldepth but no depth field is false —
the depth scan succeeds inside the seldepth token (see the
counterexample). -/
theorem claim2_missing_field_error
    (segs : List Seg) (moves : List (List Char)) (f : List Char)
    (hf : f = "seldepth".data ∨ f = "multipv".data ∨ f = "nodes".data ∨
          f = "nps".data ∨ f = "tbhits".data ∨ f = "time".data)
    (hwf : ∀ s ∈ segs, SegWF s)
    (hbound : ∀ k d, Seg.fld k d ∈ segs → digitsVal d < 2 ^ 63)
    (hsb : ∀ ev sd, Seg.scr ev sd ∈ segs → sdBound sd = true)
    (hmv0 : moves ≠ []) (hmv : ∀ m ∈ moves, exactMT m = true)
    (hscr : ∃ ev sd, Seg.scr ev sd ∈ segs)
    (hpres : ∀ g, g ∈ sevenKeys → g ≠ f → ∃ d, Seg.fld g d ∈ segs)
    (hmiss : ∀ k d, Seg.fld k d ∈ segs → sfx f k = false) :
    ParseInfo (infoLine segs moves) =
      .err ("Could not parse " ++ String.mk f ++ ": " ++ infoLine segs moves) := by
  rcases hf with h | h | h | h | h | h
  · subst h
    obtain ⟨ev, sd, es, gs⟩ := score_parses hwf hsb hscr
    have escr2 : findScore (infoLine segs moves).data = some (ev, sd) := by
      have h2 := findScore_infoLine segs moves hwf hmv
      rw [es] at h2
      exact h2
    obtain ⟨v1, e1, g1⟩ := key_parses hwf hbound "depth".data (hpres "depth".data (by decide) (by decide))
    have ekv1 : findKV "depth".data (infoLine segs moves).data = some v1 := by
      have h2 := findKV_infoLine (show KeyOK "depth".data by decide) segs moves hwf hmv
      rw [e1] at h2
      exact h2
    have emiss : findKV "seldepth".data (infoLine segs moves).data = none := by
      have h2 := findKV_infoLine (show KeyOK "seldepth".data by decide) segs moves hwf hmv
      rw [firstKV_none_of segs hmiss] at h2
      exact h2
    have ediag : findDiag (infoLine segs moves).data = false :=
      findDiag_infoLine segs moves hwf hmv
    have epv : findPv (infoLine segs moves).data = some (joinTok moves) :=
      findPv_infoLine segs moves hwf hmv0 hmv
    simp only [ParseInfo]
    rw [if_neg (show ¬ (findDiag (infoLine segs moves).data = true) from by
      rw [ediag]; exact Bool.false_ne_true)]
    simp only [epv, escr2, gs, ekv1, g1, emiss]
    rw [show ("Could not parse " ++ String.mk "seldepth".data ++ ": " : String) =
        "Could not parse seldepth: " from by decide]
  · subst h
    obtain ⟨ev, sd, es, gs⟩ := score_parses hwf hsb hscr
    have escr2 : findScore (infoLine segs moves).data = some (ev, sd) := by
      have h2 := findScore_infoLine segs moves hwf hmv
      rw [es] at h2
      exact h2
    obtain ⟨v1, e1, g1⟩ := key_parses hwf hbound "depth".data (hpres "depth".data (by decide) (by decide))
    have ekv1 : findKV "depth".data (infoLine segs moves).data = some v1 := by
      have h2 := findKV_infoLine (show KeyOK "depth".data by decide) segs moves hwf hmv
      rw [e1] at h2
      exact h2
    obtain ⟨v2, e2, g2⟩ := key_parses hwf hbound "seldepth".data (hpres "seldepth".data (by decide) (by decide))
    have ekv2 : findKV "seldepth".data (infoLine segs moves).data = some v2 := by
      have h2 := findKV_infoLine (show KeyOK "seldepth".data by decide) segs moves hwf hmv
      rw [e2] at h2
      exact h2
    have emiss : findKV "multipv".data (infoLine segs moves).data = none := by
      have h2 := findKV_infoLine (show KeyOK "multipv".data by decide) segs moves hwf hmv
      rw [firstKV_none_of segs hmiss] at h2
      exact h2
    have ediag : findDiag (infoLine segs moves).data = false :=
      findDiag_infoLine segs moves hwf hmv
    have epv : findPv (infoLine segs moves).data = some (joinTok moves) :=
      findPv_infoLine segs moves hwf hmv0 hmv
    simp only [ParseInfo]
    rw [if_neg (show ¬ (findDiag (infoLine segs moves).data = true) from by
      rw [ediag]; exact Bool.false_ne_true)]
    simp only [epv, escr2, gs, ekv1, g1, ekv2, g2, emiss]
    rw [show ("Could not parse " ++ String.mk "multipv".data ++ ": " : String) =
        "Could not parse multipv: " from by decide]
  · subst h
    obtain ⟨ev, sd, es, gs⟩ := score_parses hwf hsb hscr
    have escr2 : findScore (infoLine segs moves).data = some (ev, sd) := by
      have h2 := findScore_infoLine segs moves hwf hmv
      rw [es] at h2
      exact h2
    obtain ⟨v1, e1, g1⟩ := key_parses hwf hbound "depth".data (hpres "depth".data (by decide) (by decide))
    have ekv1 : findKV "depth".data (infoLine segs moves).data = some v1 := by
      have h2 := findKV_infoLine (show KeyOK "depth".data by decide) segs moves hwf hmv
      rw [e1] at h2
      exact h2
    obtain ⟨v2, e2, g2⟩ := key_parses hwf hbound "seldepth".data (hpres "seldepth".data (by decide) (by decide))
    have ekv2 : findKV "seldepth".data (infoLine segs moves).data = some v2 := by
      have h2 := findKV_infoLine (show KeyOK "seldepth".data by decide) segs moves hwf hmv
      rw [e2] at h2
      exact h2
    obtain ⟨v3, e3, g3⟩ := key_parses hwf hbound "multipv".data (hpres "multipv".data (by decide) (by decide))
    have ekv3 : findKV "multipv".data (infoLine segs moves).data = some v3 := by
      have h2 := findKV_infoLine (show KeyOK "multipv".data by decide) segs moves hwf hmv
      rw [e3] at h2
      exact h2
    have emiss : findKV "nodes".data (infoLine segs moves).data = none := by
      have h2 := findKV_infoLine (show KeyOK "nodes".data by decide) segs moves hwf hmv
      rw [firstKV_none_of segs hmiss] at h2
      exact h2
    have ediag : findDiag (infoLine segs moves).data = false :=
      findDiag_infoLine segs moves hwf hmv
    have epv : findPv (infoLine segs moves).data = some (joinTok moves) :=
      findPv_infoLine segs moves hwf hmv0 hmv
    simp only [ParseInfo]
    rw [if_neg (show ¬ (findDiag (infoLine segs moves).data = true) from by
      rw [ediag]; exact Bool.false_ne_true)]
    simp only [epv, escr2, gs, ekv1, g1, ekv2, g2, ekv3, g3, emiss]
    rw [show ("Could not parse " ++ String.mk "nodes".data ++ ": " : String) =
        "Could not parse nodes: " from by decide]
  · subst h
    obtain ⟨ev, sd, es, gs⟩ := score_parses hwf hsb hscr
    have escr2 : findScore (infoLine segs moves).data = some (ev, sd) := by
      have h2 := findScore_infoLine segs moves hwf hmv
      rw [es] at h2
      exact h2
    obtain ⟨v1, e1, g1⟩ := key_parses hwf hbound "depth".data (hpres "depth".data (by decide) (by decide))
    have ekv1 : findKV "depth".data (infoLine segs moves).data = some v1 := by
      have h2 := findKV_infoLine (show KeyOK "depth".data by decide) segs moves hwf hmv
      rw [e1] at h2
      exact h2
    obtain ⟨v2, e2, g2⟩ := key_parses hwf hbound "seldepth".data (hpres "seldepth".data (by decide) (by decide))
    have ekv2 : findKV "seldepth".data (infoLine segs moves).data = some v2 := by
      have h2 := findKV_infoLine (show KeyOK "seldepth".data by decide) segs moves hwf hmv
      rw [e2] at h2
      exact h2
    obtain ⟨v3, e3, g3⟩ := key_parses hwf hbound "multipv".data (hpres "multipv".data (by decide) (by decide))
    have ekv3 : findKV "multipv".data (infoLine segs moves).data = some v3 := by
      have h2 := findKV_infoLine (show KeyOK "multipv".data by decide) segs moves hwf hmv
      rw [e3] at h2
      exact h2
    obtain ⟨v4, e4, g4⟩ := key_parses hwf hbound "nodes".data (hpres "nodes".data (by decide) (by decide))
    have ekv4 : findKV "nodes".data (infoLine segs moves).data = some v4 := by
      have h2 := findKV_infoLine (show KeyOK "nodes".data by decide) segs moves hwf hmv
      rw [e4] at h2
      exact h2
    have emiss : findKV "nps".data (infoLine segs moves).data = none := by
      have h2 := findKV_infoLine (show KeyOK "nps".data by decide) segs moves hwf hmv
      rw [firstKV_none_of segs hmiss] at h2
      exact h2
    have ediag : findDiag (infoLine segs moves).data = false :=
      findDiag_infoLine segs moves hwf hmv
    have epv : findPv (infoLine segs moves).data = some (joinTok moves) :=
      findPv_infoLine segs moves hwf hmv0 hmv
    simp only [ParseInfo]
    rw [if_neg (show ¬ (findDiag (infoLine segs moves).data = true) from by
      rw [ediag]; exact Bool.false_ne_true)]
    simp only [epv, escr2, gs, ekv1, g1, ekv2, g2, ekv3, g3, ekv4, g4, emiss]
    rw [show ("Could not parse " ++ String.mk "nps".data ++ ": " : String) =
        "Could not parse nps: " from by decide]
  · subst h
    obtain ⟨ev, sd, es, gs⟩ := score_parses hwf hsb hscr
    have escr2 : findScore (infoLine segs moves).data = some (ev, sd) := by
      have h2 := findScore_infoLine segs moves hwf hmv
      rw [es] at h2
      exact h2
    obtain ⟨v1, e1, g1⟩ := key_parses hwf hbound "depth".data (hpres "depth".data (by decide) (by decide))
    have ekv1 : findKV "depth".data (infoLine segs moves).data = some v1 := by
      have h2 := findKV_infoLine (show KeyOK "depth".data by decide) segs moves hwf hmv
      rw [e1] at h2
      exact h2
    obtain ⟨v2, e2, g2⟩ := key_parses hwf hbound "seldepth".data (hpres "seldepth".data (by decide) (by decide))
    have ekv2 : findKV "seldepth".data (infoLine segs moves).data = some v2 := by
      have h2 := findKV_infoLine (show KeyOK "seldepth".data by decide) segs moves hwf hmv
      rw [e2] at h2
      exact h2
    obtain ⟨v3, e3, g3⟩ := key_parses hwf hbound "multipv".data (hpres "multipv".data (by decide) (by decide))
    have ekv3 : findKV "multipv".data (infoLine segs moves).data = some v3 := by
      have h2 := findKV_infoLine (show KeyOK "multipv".data by decide) segs moves hwf hmv
      rw [e3] at h2
      exact h2
    obtain ⟨v4, e4, g4⟩ := key_parses hwf hbound "nodes".data (hpres "nodes".data (by decide) (by decide))
    have ekv4 : findKV "nodes".data (infoLine segs moves).data = some v4 := by
      have h2 := findKV_infoLine (show KeyOK "nodes".data by decide) segs moves hwf hmv
      rw [e4] at h2
      exact h2
    obtain ⟨v5, e5, g5⟩ := key_parses hwf hbound "nps".data (hpres "nps".data (by decide) (by decide))
    have ekv5 : findKV "nps".data (infoLine segs moves).data = some v5 := by
      have h2 := findKV_infoLine (show KeyOK "nps".data by decide) segs moves hwf hmv
      rw [e5] at h2
      exact h2
    have emiss : findKV "tbhits".data (infoLine segs moves).data = none := by
      have h2 := findKV_infoLine (show KeyOK "tbhits".data by decide) segs moves hwf hmv
      rw [firstKV_none_of segs hmiss] at h2
      exact h2
    have ediag : findDiag (infoLine segs moves).data = false :=
      findDiag_infoLine segs moves hwf hmv
    have epv : findPv (infoLine segs moves).data = some (joinTok moves) :=
      findPv_infoLine segs moves hwf hmv0 hmv
    simp only [ParseInfo]
    rw [if_neg (show ¬ (findDiag (infoLine segs moves).data = true) from by
      rw [ediag]; exact Bool.false_ne_true)]
    simp only [epv, escr2, gs, ekv1, g1, ekv2, g2, ekv3, g3, ekv4, g4, ekv5, g5, emiss]
    rw [show ("Could not parse " ++ String.mk "tbhits".data ++ ": " : String) =
        "Could not parse tbhits: " from by decide]
  · subst h
    obtain ⟨ev, sd, es, gs⟩ := score_parses hwf hsb hscr
    have escr2 : findScore (infoLine segs moves).data = some (ev, sd) := by
      have h2 := findScore_infoLine segs moves hwf hmv
      rw [es] at h2
      exact h2
    obtain ⟨v1, e1, g1⟩ := key_parses hwf hbound "depth".data (hpres "depth".data (by decide) (by decide))
    have ekv1 : findKV "depth".data (infoLine segs moves).data = some v1 := by
      have h2 := findKV_infoLine (show KeyOK "depth".data by decide) segs moves hwf hmv
      rw [e1] at h2
      exact h2
    obtain ⟨v2, e2, g2⟩ := key_parses hwf hbound "seldepth".data (hpres "seldepth".data (by decide) (by decide))
    have ekv2 : findKV "seldepth".data (infoLine segs moves).data = some v2 := by
      have h2 := findKV_infoLine (show KeyOK "seldepth".data by decide) segs moves hwf hmv
      rw [e2] at h2
      exact h2
    obtain ⟨v3, e3, g3⟩ := key_parses hwf hbound "multipv".data (hpres "multipv".data (by decide) (by decide))
    have ekv3 : findKV "multipv".data (infoLine segs moves).data = some v3 := by
      have h2 := findKV_infoLine (show KeyOK "multipv".data by decide) segs moves hwf hmv
      rw [e3] at h2
      exact h2
    obtain ⟨v4, e4, g4⟩ := key_parses hwf hbound "nodes".data (hpres "nodes".data (by decide) (by decide))
    have ekv4 : findKV "nodes".data (infoLine segs moves).data = some v4 := by
      have h2 := findKV_infoLine (show KeyOK "nodes".data by decide) segs moves hwf hmv
      rw [e4] at h2
      exact h2
    obtain ⟨v5, e5, g5⟩ := key_parses hwf hbound "nps".data (hpres "nps".data (by decide) (by decide))
    have ekv5 : findKV "nps".data (infoLine segs moves).data = some v5 := by
      have h2 := findKV_infoLine (show KeyOK "nps".data by decide) segs moves hwf hmv
      rw [e5] at h2
      exact h2
    obtain ⟨v6, e6, g6⟩ := key_parses hwf hbound "tbhits".data (hpres "tbhits".data (by decide) (by decide))
    have ekv6 : findKV "tbhits".data (infoLine segs moves).data = some v6 := by
      have h2 := findKV_infoLine (show KeyOK "tbhits".data by decide) segs moves hwf hmv
      rw [e6] at h2
      exact h2
    have emiss : findKV "time".data (infoLine segs moves).data = none := by
      have h2 := findKV_infoLine (show KeyOK "time".data by decide) segs moves hwf hmv
      rw [firstKV_none_of segs hmiss] at h2
      exact h2
    have ediag : findDiag (infoLine segs moves).data = false :=
      findDiag_infoLine segs moves hwf hmv
    have epv : findPv (infoLine segs moves).data = some (joinTok moves) :=
      findPv_infoLine segs moves hwf hmv0 hmv
    simp only [ParseInfo]
    rw [if_neg (show ¬ (findDiag (infoLine segs moves).data = true) from by
      rw [ediag]; exact Bool.false_ne_true)]
    simp only [epv, escr2, gs, ekv1, g1, ekv2, g2, ekv3, g3, ekv4, g4, ekv5, g5, ekv6, g6, emiss]
    rw [show ("Could not parse " ++ String.mk "time".data ++ ": " : String) =
        "Could not parse time: " from by decide]

/-- Counterexample to claim C2 as stated: this line contains seldepth but
no depth field, yet ParseInfo succeeds (reading Depth out of the seldepth
token) instead of failing with an error naming depth. -/
theorem claim2_counterexample :
    ParseInfo "info seldepth 3 multipv 1 nodes 43 nps 43000 tbhits 0 time 1 score cp 10 pv e2e4" =
      .ok { Depth := 3, Seldepth := 3, Multipv := 1, Score := { Eval := "cp", Value := 10 },
            Nodes := 43, Nps := 43000, Tbhits := 0, Time := 1, Pv := "e2e4" } := by
  decide

/-- Witness for claim C2 at a concrete instantiation: a line with every
field except seldepth errs naming seldepth. -/
theorem claim2_witness :
    infoLine [Seg.fld "depth".data "2".data, Seg.fld "multipv".data "1".data,
      Seg.fld "nodes".data "43".data, Seg.fld "nps".data "43000".data,
      Seg.fld "tbhits".data "0".data, Seg.fld "time".data "1".data,
      Seg.scr "cp".data "-656".data] ["g7g6".data] =
      "info depth 2 multipv 1 nodes 43 nps 43000 tbhits 0 time 1 score cp -656 pv g7g6" ∧
    ParseInfo (infoLine [Seg.fld "depth".data "2".data, Seg.fld "multipv".data "1".data,
      Seg.fld "nodes".data "43".data, Seg.fld "nps".data "43000".data,
      Seg.fld "tbhits".data "0".data, Seg.fld "time".data "1".data,
      Seg.scr "cp".data "-656".data] ["g7g6".data]) =
      .err ("Could not parse " ++ String.mk "seldepth".data ++ ": " ++
        infoLine [Seg.fld "depth".data "2".data, Seg.fld "multipv".data "1".data,
          Seg.fld "nodes".data "43".data, Seg.fld "nps".data "43000".data,
          Seg.fld "tbhits".data "0".data, Seg.fld "time".data "1".data,
          Seg.scr "cp".data "-656".data] ["g7g6".data]) :=
  ⟨by decide,
   claim2_missing_field_error
     [Seg.fld "depth".data "2".data, Seg.fld "multipv".data "1".data,
      Seg.fld "nodes".data "43".data, Seg.fld "nps".data "43000".data,
      Seg.fld "tbhits".data "0".data, Seg.fld "time".data "1".data,
      Seg.scr "cp".data "-656".data] ["g7g6".data] "seldepth".data
     (Or.inl rfl)
     (by
       intro s hs
       simp only [List.mem_cons, List.not_mem_nil, or_false] at hs
       rcases hs with h | h | h | h | h | h | h <;> subst h <;>
         first
           | exact ⟨by decide, by decide, by decide⟩
           | exact ⟨by decide, by decide, by decide, by decide⟩)
     (by
       intro k d hm
       simp only [List.mem_cons, List.not_mem_nil, or_false] at hm
       rcases hm with h | h | h | h | h | h | h <;>
         first
           | exact Seg.noConfusion h
           | (injection h with hk hd; subst hk; subst hd; decide))
     (by
       intro ev sd hm
       simp only [List.mem_cons, List.not_mem_nil, or_false] at hm
       rcases hm with h | h | h | h | h | h | h <;>
         first
           | exact Seg.noConfusion h
           | (injection h with hk hd; subst hk; subst hd; decide))
     (by decide)
     (by decide)
     ⟨"cp".data, "-656".data, by decide⟩
     (by
       intro g hg hne
       simp only [sevenKeys, List.mem_cons, List.not_mem_nil, or_false] at hg
       rcases hg with h | h | h | h | h | h | h <;> subst h
       · exact ⟨"2".data, by decide⟩
       · exact absurd rfl hne
       · exact ⟨"1".data, by decide⟩
       · exact ⟨"43".data, by decide⟩
       · exact ⟨"43000".data, by decide⟩
       · exact ⟨"0".data, by decide⟩
       · exact ⟨"1".data, by decide⟩)
     (by
       intro k d hm
       simp only [List.mem_cons, List.not_mem_nil, or_false] at hm
       rcases hm with h | h | h | h | h | h | h <;>
         first
           | exact Seg.noConfusion h
           | (injection h with hk hd; subst hk; decide))⟩

/-! ## Claim 7 -/

/-- Claim C7: for every line of the engine diagnostic/string-notice shape —
the literal info string, a nonempty spaceless word, the literal evaluation
using, a nonempty spaceless word, and the literal enabled — ParseInfo
returns the empty default Info record and no error. -/
theorem claim7_diag_line_ok (a b : List Char)
    (ha0 : a ≠ []) (ha : a.all nonSpace = true)
    (hb0 : b ≠ []) (hb : b.all nonSpace = true) :
    ParseInfo (String.mk ("info string ".data ++ (a ++ (" evaluation using ".data ++ (b ++ " enabled".data))))) = .ok emptyInfo := by
  have hdw_a : a.dropWhile nonSpace = [] := by
    rw [List.dropWhile_eq_nil_iff]
    intro x hx
    exact List.all_eq_true.mp ha x hx
  have hdw_b : b.dropWhile nonSpace = [] := by
    rw [List.dropWhile_eq_nil_iff]
    intro x hx
    exact List.all_eq_true.mp hb x hx
  have htail : diagTail ("string ".data ++ (a ++ (" evaluation using ".data ++ (b ++ " enabled".data)))) = true := by
    have h0 : dropStart ("string".data ++ [' ']) ("string ".data ++ (a ++ (" evaluation using ".data ++ (b ++ " enabled".data)))) =
        some (a ++ (" evaluation using ".data ++ (b ++ " enabled".data))) := by
      show dropStart ("string".data ++ [' '])
        (("string".data ++ [' ']) ++ (a ++ (" evaluation using ".data ++ (b ++ " enabled".data)))) = _
      exact dropStart_exact _ _
    simp only [diagTail, h0]
    rw [show (a ++ (" evaluation using ".data ++ (b ++ " enabled".data))) =
        (a ++ ' ' :: ("evaluation using ".data ++ (b ++ " enabled".data))) from rfl]
    rw [tw_break nonSpace (by decide) a _, takeWhile_all_eq ha, if_neg ha0,
      dw_break nonSpace (by decide) a _, hdw_a]
    rw [show (([] : List Char) ++ ' ' :: ("evaluation using ".data ++ (b ++ " enabled".data))) =
        (" evaluation using ".data ++ (b ++ " enabled".data)) from rfl]
    rw [dropStart_exact]
    rw [show (b ++ " enabled".data) = (b ++ ' ' :: "enabled".data) from rfl]
    show (if List.takeWhile nonSpace (b ++ ' ' :: "enabled".data) = [] then false
          else
            match dropStart " enabled".data (List.dropWhile nonSpace (b ++ ' ' :: "enabled".data)) with
            | some _ => true
            | none => false) = true
    rw [tw_break nonSpace (by decide) b _, takeWhile_all_eq hb, if_neg hb0,
      dw_break nonSpace (by decide) b _, hdw_b]
    rw [show (([] : List Char) ++ ' ' :: "enabled".data) =
        (" enabled".data ++ ([] : List Char)) from rfl]
    rw [dropStart_exact]
  have hmatch : matchDiagAt ("info string ".data ++ (a ++ (" evaluation using ".data ++ (b ++ " enabled".data)))) = true := by
    have h0 : dropStart ("info".data ++ [' ']) ("info string ".data ++ (a ++ (" evaluation using ".data ++ (b ++ " enabled".data)))) =
        some ("string ".data ++ (a ++ (" evaluation using ".data ++ (b ++ " enabled".data)))) := by
      show dropStart ("info".data ++ [' '])
        (("info".data ++ [' ']) ++ ("string ".data ++ (a ++ (" evaluation using ".data ++ (b ++ " enabled".data))))) = _
      exact dropStart_exact _ _
    simp only [matchDiagAt, h0]
    exact htail
  have hfind : findDiag ("info string ".data ++ (a ++ (" evaluation using ".data ++ (b ++ " enabled".data)))) = true := by
    show (matchDiagAt ("info string ".data ++ (a ++ (" evaluation using ".data ++ (b ++ " enabled".data)))) ||
      findDiag ("nfo string ".data ++ (a ++ (" evaluation using ".data ++ (b ++ " enabled".data))))) = true
    rw [hmatch]
    simp
  simp only [ParseInfo]
  rw [if_pos (show findDiag (String.mk ("info string ".data ++ (a ++ (" evaluation using ".data ++ (b ++ " enabled".data))))).data = true from hfind)]

/-- Witness for claim C7 at a concrete instantiation: the NNUE notice line
of Stockfish 12. -/
theorem claim7_witness :
    ("info string ".data ++ ("NNUE".data ++ (" evaluation using ".data ++
        ("nn-82215d0fd0df.nnue".data ++ " enabled".data))) =
      "info string NNUE evaluation using nn-82215d0fd0df.nnue enabled".data) ∧
    ParseInfo (String.mk ("info string ".data ++ ("NNUE".data ++ (" evaluation using ".data ++
        ("nn-82215d0fd0df.nnue".data ++ " enabled".data))))) = .ok emptyInfo :=
  ⟨by decide,
   claim7_diag_line_ok "NNUE".data "nn-82215d0fd0df.nnue".data
     (by decide) (by decide) (by decide) (by decide)⟩

/-! ## Claim 1 -/

set_option maxHeartbeats 1600000 in
/-- Claim C1 (amended): for every well-formed info line containing the
seven unsigned-integer fields, a score field and a trailing pv field, in
any relative order of the non-pv fields in which the depth field precedes
the seldepth field, ParseInfo returns the Info record whose fields equal
exactly the literal values present in the line and whose pv is the verbatim
move-list text; when seldepth precedes depth, the depth value is instead
read out of the seldepth token (see the counterexample). -/
theorem claim1_info_roundtrip
    (d1 d2 d3 d4 d5 d6 d7 ev sd : List Char) (moves : List (List Char))
    (l1 l2 l3 : List Seg)
    (hd1 : d1 ≠ [] ∧ d1.all isDigitC = true ∧ digitsVal d1 < 2 ^ 63)
    (hd2 : d2 ≠ [] ∧ d2.all isDigitC = true ∧ digitsVal d2 < 2 ^ 63)
    (hd3 : d3 ≠ [] ∧ d3.all isDigitC = true ∧ digitsVal d3 < 2 ^ 63)
    (hd4 : d4 ≠ [] ∧ d4.all isDigitC = true ∧ digitsVal d4 < 2 ^ 63)
    (hd5 : d5 ≠ [] ∧ d5.all isDigitC = true ∧ digitsVal d5 < 2 ^ 63)
    (hd6 : d6 ≠ [] ∧ d6.all isDigitC = true ∧ digitsVal d6 < 2 ^ 63)
    (hd7 : d7 ≠ [] ∧ d7.all isDigitC = true ∧ digitsVal d7 < 2 ^ 63)
    (hev : ev = "cp".data ∨ ev = "mate".data)
    (hsd : sd ≠ [] ∧ ' ' ∉ sd ∧ sdParse sd = some sd ∧ sdBound sd = true)
    (hmv0 : moves ≠ []) (hmv : ∀ m ∈ moves, exactMT m = true)
    (hperm : (l1 ++ l2 ++ l3).Perm
      [Seg.fld "multipv".data d3, Seg.fld "nodes".data d4, Seg.fld "nps".data d5,
      Seg.fld "tbhits".data d6, Seg.fld "time".data d7, Seg.scr ev sd]) :
    ParseInfo (infoLine (l1 ++ Seg.fld "depth".data d1 :: (l2 ++ Seg.fld "seldepth".data d2 :: l3)) moves) =
      .ok { Depth := (digitsVal d1 : Int), Seldepth := (digitsVal d2 : Int),
            Multipv := (digitsVal d3 : Int),
            Score := { Eval := String.mk ev, Value := sdVal sd },
            Nodes := (digitsVal d4 : Int), Nps := (digitsVal d5 : Int),
            Tbhits := (digitsVal d6 : Int), Time := (digitsVal d7 : Int),
            Pv := String.mk (joinTok moves) } := by
  have hsub2 : ∀ s ∈ l1 ++ l2 ++ l3, s ∈ (l1 ++ Seg.fld "depth".data d1 :: (l2 ++ Seg.fld "seldepth".data d2 :: l3)) := by
    intro s hs
    simp only [List.mem_append, List.mem_cons] at hs ⊢
    tauto
  have hmem_in_segs : ∀ s : Seg, s ∈ ([Seg.fld "multipv".data d3, Seg.fld "nodes".data d4, Seg.fld "nps".data d5,
      Seg.fld "tbhits".data d6, Seg.fld "time".data d7, Seg.scr ev sd] : List Seg) → s ∈ (l1 ++ Seg.fld "depth".data d1 :: (l2 ++ Seg.fld "seldepth".data d2 :: l3)) :=
    fun s h => hsub2 s (hperm.mem_iff.mpr h)
  have hmem_segs : ∀ s ∈ (l1 ++ Seg.fld "depth".data d1 :: (l2 ++ Seg.fld "seldepth".data d2 :: l3)),
      s = Seg.fld "depth".data d1 ∨ s = Seg.fld "seldepth".data d2 ∨
      s = Seg.fld "multipv".data d3 ∨ s = Seg.fld "nodes".data d4 ∨
      s = Seg.fld "nps".data d5 ∨ s = Seg.fld "tbhits".data d6 ∨
      s = Seg.fld "time".data d7 ∨ s = Seg.scr ev sd := by
    intro s hs
    simp only [List.mem_append, List.mem_cons] at hs
    have hsix : s ∈ l1 ∨ s ∈ l2 ∨ s ∈ l3 →
        (s = Seg.fld "multipv".data d3 ∨ s = Seg.fld "nodes".data d4 ∨
         s = Seg.fld "nps".data d5 ∨ s = Seg.fld "tbhits".data d6 ∨
         s = Seg.fld "time".data d7 ∨ s = Seg.scr ev sd) := by
      intro h
      have h2 : s ∈ l1 ++ l2 ++ l3 := by
        simp only [List.mem_append]
        tauto
      have h3 := hperm.mem_iff.mp h2
      simpa using h3
    tauto
  have hwf : ∀ s ∈ (l1 ++ Seg.fld "depth".data d1 :: (l2 ++ Seg.fld "seldepth".data d2 :: l3)), SegWF s := by
    intro s hs
    rcases hmem_segs s hs with h | h | h | h | h | h | h | h
    · subst h; exact ⟨by decide, hd1.1, hd1.2.1⟩
    · subst h; exact ⟨by decide, hd2.1, hd2.2.1⟩
    · subst h; exact ⟨by decide, hd3.1, hd3.2.1⟩
    · subst h; exact ⟨by decide, hd4.1, hd4.2.1⟩
    · subst h; exact ⟨by decide, hd5.1, hd5.2.1⟩
    · subst h; exact ⟨by decide, hd6.1, hd6.2.1⟩
    · subst h; exact ⟨by decide, hd7.1, hd7.2.1⟩
    · subst h; exact ⟨hev, hsd.1, hsd.2.1, hsd.2.2.1⟩
  have hdep : firstKV "depth".data (l1 ++ Seg.fld "depth".data d1 :: (l2 ++ Seg.fld "seldepth".data d2 :: l3)) = some d1 := by
    rw [firstKV_append]
    have h1 : firstKV "depth".data l1 = none := by
      apply firstKV_none_of
      intro k2 dd hm
      have hm2 : Seg.fld k2 dd ∈ l1 ++ l2 ++ l3 := by
        simp only [List.mem_append]
        tauto
      have h3 := hperm.mem_iff.mp hm2
      simp only [List.mem_cons, List.not_mem_nil, or_false] at h3
      rcases h3 with h | h | h | h | h | h
      · injection h with hk hd
        rw [hk]
        decide
      · injection h with hk hd
        rw [hk]
        decide
      · injection h with hk hd
        rw [hk]
        decide
      · injection h with hk hd
        rw [hk]
        decide
      · injection h with hk hd
        rw [hk]
        decide
      · exact Seg.noConfusion h
    rw [h1]
    show firstKV "depth".data
      (Seg.fld "depth".data d1 :: (l2 ++ Seg.fld "seldepth".data d2 :: l3)) = some d1
    rw [show firstKV "depth".data
        (Seg.fld "depth".data d1 :: (l2 ++ Seg.fld "seldepth".data d2 :: l3)) =
        (if sfx "depth".data "depth".data = true then some d1
         else firstKV "depth".data (l2 ++ Seg.fld "seldepth".data d2 :: l3)) from rfl,
      if_pos (sfx_self _)]
  have hsel : firstKV "seldepth".data (l1 ++ Seg.fld "depth".data d1 :: (l2 ++ Seg.fld "seldepth".data d2 :: l3)) = some d2 := by
    apply firstKV_of_mem
    · simp
    · intro k2 dd hm hs
      rcases hmem_segs (Seg.fld k2 dd) hm with h | h | h | h | h | h | h | h
      · injection h with hk hd
        rw [hk] at hs
        exact absurd hs (by decide)
      · injection h with hk hd
        exact ⟨hk, hd⟩
      · injection h with hk hd
        rw [hk] at hs
        exact absurd hs (by decide)
      · injection h with hk hd
        rw [hk] at hs
        exact absurd hs (by decide)
      · injection h with hk hd
        rw [hk] at hs
        exact absurd hs (by decide)
      · injection h with hk hd
        rw [hk] at hs
        exact absurd hs (by decide)
      · injection h with hk hd
        rw [hk] at hs
        exact absurd hs (by decide)
      · exact Seg.noConfusion h
  have hmp : firstKV "multipv".data (l1 ++ Seg.fld "depth".data d1 :: (l2 ++ Seg.fld "seldepth".data d2 :: l3)) = some d3 := by
    apply firstKV_of_mem
    · exact hmem_in_segs _ (by simp)
    · intro k2 dd hm hs
      rcases hmem_segs (Seg.fld k2 dd) hm with h | h | h | h | h | h | h | h
      · injection h with hk hd
        rw [hk] at hs
        exact absurd hs (by decide)
      · injection h with hk hd
        rw [hk] at hs
        exact absurd hs (by decide)
      · injection h with hk hd
        exact ⟨hk, hd⟩
      · injection h with hk hd
        rw [hk] at hs
        exact absurd hs (by decide)
      · injection h with hk hd
        rw [hk] at hs
        exact absurd hs (by decide)
      · injection h with hk hd
        rw [hk] at hs
        exact absurd hs (by decide)
      · injection h with hk hd
        rw [hk] at hs
        exact absurd hs (by decide)
      · exact Seg.noConfusion h
  have hno : firstKV "nodes".data (l1 ++ Seg.fld "depth".data d1 :: (l2 ++ Seg.fld "seldepth".data d2 :: l3)) = some d4 := by
    apply firstKV_of_mem
    · exact hmem_in_segs _ (by simp)
    · intro k2 dd hm hs
      rcases hmem_segs (Seg.fld k2 dd) hm with h | h | h | h | h | h | h | h
      · injection h with hk hd
        rw [hk] at hs
        exact absurd hs (by decide)
      · injection h with hk hd
        rw [hk] at hs
        exact absurd hs (by decide)
      · injection h with hk hd
        rw [hk] at hs
        exact absurd hs (by decide)
      · injection h with hk hd
        exact ⟨hk, hd⟩
      · injection h with hk hd
        rw [hk] at hs
        exact absurd hs (by decide)
      · injection h with hk hd
        rw [hk] at hs
        exact absurd hs (by decide)
      · injection h with hk hd
        rw [hk] at hs
        exact absurd hs (by decide)
      · exact Seg.noConfusion h
  have hnp : firstKV "nps".data (l1 ++ Seg.fld "depth".data d1 :: (l2 ++ Seg.fld "seldepth".data d2 :: l3)) = some d5 := by
    apply firstKV_of_mem
    · exact hmem_in_segs _ (by simp)
    · intro k2 dd hm hs
      rcases hmem_segs (Seg.fld k2 dd) hm with h | h | h | h | h | h | h | h
      · injection h with hk hd
        rw [hk] at hs
        exact absurd hs (by decide)
      · injection h with hk hd
        rw [hk] at hs
        exact absurd hs (by decide)
      · injection h with hk hd
        rw [hk] at hs
        exact absurd hs (by decide)
      · injection h with hk hd
        rw [hk] at hs
        exact absurd hs (by decide)
      · injection h with hk hd
        exact ⟨hk, hd⟩
      · injection h with hk hd
        rw [hk] at hs
        exact absurd hs (by decide)
      · injection h with hk hd
        rw [hk] at hs
        exact absurd hs (by decide)
      · exact Seg.noConfusion h
  have htb : firstKV "tbhits".data (l1 ++ Seg.fld "depth".data d1 :: (l2 ++ Seg.fld "seldepth".data d2 :: l3)) = some d6 := by
    apply firstKV_of_mem
    · exact hmem_in_segs _ (by simp)
    · intro k2 dd hm hs
      rcases hmem_segs (Seg.fld k2 dd) hm with h | h | h | h | h | h | h | h
      · injection h with hk hd
        rw [hk] at hs
        exact absurd hs (by decide)
      · injection h with hk hd
        rw [hk] at hs
        exact absurd hs (by decide)
      · injection h with hk hd
        rw [hk] at hs
        exact absurd hs (by decide)
      · injection h with hk hd
        rw [hk] at hs
        exact absurd hs (by decide)
      · injection h with hk hd
        rw [hk] at hs
        exact absurd hs (by decide)
      · injection h with hk hd
        exact ⟨hk, hd⟩
      · injection h with hk hd
        rw [hk] at hs
        exact absurd hs (by decide)
      · exact Seg.noConfusion h
  have hti : firstKV "time".data (l1 ++ Seg.fld "depth".data d1 :: (l2 ++ Seg.fld "seldepth".data d2 :: l3)) = some d7 := by
    apply firstKV_of_mem
    · exact hmem_in_segs _ (by simp)
    · intro k2 dd hm hs
      rcases hmem_segs (Seg.fld k2 dd) hm with h | h | h | h | h | h | h | h
      · injection h with hk hd
        rw [hk] at hs
        exact absurd hs (by decide)
      · injection h with hk hd
        rw [hk] at hs
        exact absurd hs (by decide)
      · injection h with hk hd
        rw [hk] at hs
        exact absurd hs (by decide)
      · injection h with hk hd
        rw [hk] at hs
        exact absurd hs (by decide)
      · injection h with hk hd
        rw [hk] at hs
        exact absurd hs (by decide)
      · injection h with hk hd
        rw [hk] at hs
        exact absurd hs (by decide)
      · injection h with hk hd
        exact ⟨hk, hd⟩
      · exact Seg.noConfusion h
  have hsc : firstScore (l1 ++ Seg.fld "depth".data d1 :: (l2 ++ Seg.fld "seldepth".data d2 :: l3)) = some (ev, sd) := by
    apply firstScore_of_mem
    · exact hmem_in_segs _ (by simp)
    · intro e2 s2 hm
      rcases hmem_segs (Seg.scr e2 s2) hm with h | h | h | h | h | h | h | h
      · exact Seg.noConfusion h
      · exact Seg.noConfusion h
      · exact Seg.noConfusion h
      · exact Seg.noConfusion h
      · exact Seg.noConfusion h
      · exact Seg.noConfusion h
      · exact Seg.noConfusion h
      · injection h with h1 h2
        exact ⟨h1, h2⟩
  have ediag : findDiag (infoLine (l1 ++ Seg.fld "depth".data d1 :: (l2 ++ Seg.fld "seldepth".data d2 :: l3)) moves).data = false :=
    findDiag_infoLine _ moves hwf hmv
  have epv : findPv (infoLine (l1 ++ Seg.fld "depth".data d1 :: (l2 ++ Seg.fld "seldepth".data d2 :: l3)) moves).data = some (joinTok moves) :=
    findPv_infoLine _ moves hwf hmv0 hmv
  have escr : findScore (infoLine (l1 ++ Seg.fld "depth".data d1 :: (l2 ++ Seg.fld "seldepth".data d2 :: l3)) moves).data = some (ev, sd) := by
    have h := findScore_infoLine (l1 ++ Seg.fld "depth".data d1 :: (l2 ++ Seg.fld "seldepth".data d2 :: l3)) moves hwf hmv
    rw [hsc] at h
    exact h
  have ekv1 : findKV "depth".data (infoLine (l1 ++ Seg.fld "depth".data d1 :: (l2 ++ Seg.fld "seldepth".data d2 :: l3)) moves).data = some d1 := by
    have h := findKV_infoLine (show KeyOK "depth".data by decide) (l1 ++ Seg.fld "depth".data d1 :: (l2 ++ Seg.fld "seldepth".data d2 :: l3)) moves hwf hmv
    rw [hdep] at h
    exact h
  have ekv2 : findKV "seldepth".data (infoLine (l1 ++ Seg.fld "depth".data d1 :: (l2 ++ Seg.fld "seldepth".data d2 :: l3)) moves).data = some d2 := by
    have h := findKV_infoLine (show KeyOK "seldepth".data by decide) (l1 ++ Seg.fld "depth".data d1 :: (l2 ++ Seg.fld "seldepth".data d2 :: l3)) moves hwf hmv
    rw [hsel] at h
    exact h
  have ekv3 : findKV "multipv".data (infoLine (l1 ++ Seg.fld "depth".data d1 :: (l2 ++ Seg.fld "seldepth".data d2 :: l3)) moves).data = some d3 := by
    have h := findKV_infoLine (show KeyOK "multipv".data by decide) (l1 ++ Seg.fld "depth".data d1 :: (l2 ++ Seg.fld "seldepth".data d2 :: l3)) moves hwf hmv
    rw [hmp] at h
    exact h
  have ekv4 : findKV "nodes".data (infoLine (l1 ++ Seg.fld "depth".data d1 :: (l2 ++ Seg.fld "seldepth".data d2 :: l3)) moves).data = some d4 := by
    have h := findKV_infoLine (show KeyOK "nodes".data by decide) (l1 ++ Seg.fld "depth".data d1 :: (l2 ++ Seg.fld "seldepth".data d2 :: l3)) moves hwf hmv
    rw [hno] at h
    exact h
  have ekv5 : findKV "nps".data (infoLine (l1 ++ Seg.fld "depth".data d1 :: (l2 ++ Seg.fld "seldepth".data d2 :: l3)) moves).data = some d5 := by
    have h := findKV_infoLine (show KeyOK "nps".data by decide) (l1 ++ Seg.fld "depth".data d1 :: (l2 ++ Seg.fld "seldepth".data d2 :: l3)) moves hwf hmv
    rw [hnp] at h
    exact h
  have ekv6 : findKV "tbhits".data (infoLine (l1 ++ Seg.fld "depth".data d1 :: (l2 ++ Seg.fld "seldepth".data d2 :: l3)) moves).data = some d6 := by
    have h := findKV_infoLine (show KeyOK "tbhits".data by decide) (l1 ++ Seg.fld "depth".data d1 :: (l2 ++ Seg.fld "seldepth".data d2 :: l3)) moves hwf hmv
    rw [htb] at h
    exact h
  have ekv7 : findKV "time".data (infoLine (l1 ++ Seg.fld "depth".data d1 :: (l2 ++ Seg.fld "seldepth".data d2 :: l3)) moves).data = some d7 := by
    have h := findKV_infoLine (show KeyOK "time".data by decide) (l1 ++ Seg.fld "depth".data d1 :: (l2 ++ Seg.fld "seldepth".data d2 :: l3)) moves hwf hmv
    rw [hti] at h
    exact h
  simp only [ParseInfo]
  rw [if_neg (show ¬ (findDiag (infoLine (l1 ++ Seg.fld "depth".data d1 :: (l2 ++ Seg.fld "seldepth".data d2 :: l3)) moves).data = true) from by
    rw [ediag]; exact Bool.false_ne_true)]
  simp only [epv, escr, goAtoi_sdParse hsd.2.2.1 hsd.2.2.2,
    ekv1, goAtoi_digits hd1.1 hd1.2.1 hd1.2.2,
    ekv2, goAtoi_digits hd2.1 hd2.2.1 hd2.2.2,
    ekv3, goAtoi_digits hd3.1 hd3.2.1 hd3.2.2,
    ekv4, goAtoi_digits hd4.1 hd4.2.1 hd4.2.2,
    ekv5, goAtoi_digits hd5.1 hd5.2.1 hd5.2.2,
    ekv6, goAtoi_digits hd6.1 hd6.2.1 hd6.2.2,
    ekv7, goAtoi_digits hd7.1 hd7.2.1 hd7.2.2]

/-- Counterexample to claim C1 as stated: in the line below the non-pv
fields are merely reordered (seldepth before depth), yet ParseInfo reports
Depth = 3 although the literal depth value in the line is 2 — the depth
scan fires inside the seldepth token. -/
theorem claim1_counterexample :
    ParseInfo "info seldepth 3 depth 2 multipv 1 score cp -656 nodes 43 nps 43000 tbhits 0 time 1 pv g7g6" =
      .ok { Depth := 3, Seldepth := 3, Multipv := 1, Score := { Eval := "cp", Value := -656 },
            Nodes := 43, Nps := 43000, Tbhits := 0, Time := 1, Pv := "g7g6" } := by
  decide

/-- Witness for claim C1 at a concrete instantiation: the canonically
ordered line round-trips. -/
theorem claim1_witness :
    infoLine ([] ++ Seg.fld "depth".data "2".data ::
        ([] ++ Seg.fld "seldepth".data "3".data ::
          [Seg.fld "multipv".data "1".data, Seg.fld "nodes".data "43".data,
           Seg.fld "nps".data "43000".data, Seg.fld "tbhits".data "0".data,
           Seg.fld "time".data "1".data, Seg.scr "cp".data "-656".data])) ["g7g6".data] =
      "info depth 2 seldepth 3 multipv 1 nodes 43 nps 43000 tbhits 0 time 1 score cp -656 pv g7g6" ∧
    ParseInfo (infoLine ([] ++ Seg.fld "depth".data "2".data ::
        ([] ++ Seg.fld "seldepth".data "3".data ::
          [Seg.fld "multipv".data "1".data, Seg.fld "nodes".data "43".data,
           Seg.fld "nps".data "43000".data, Seg.fld "tbhits".data "0".data,
           Seg.fld "time".data "1".data, Seg.scr "cp".data "-656".data])) ["g7g6".data]) =
      .ok { Depth := 2, Seldepth := 3, Multipv := 1, Score := { Eval := "cp", Value := -656 },
            Nodes := 43, Nps := 43000, Tbhits := 0, Time := 1, Pv := "g7g6" } :=
  ⟨by decide,
   claim1_info_roundtrip "2".data "3".data "1".data "43".data "43000".data "0".data "1".data
     "cp".data "-656".data ["g7g6".data] [] []
     [Seg.fld "multipv".data "1".data, Seg.fld "nodes".data "43".data,
      Seg.fld "nps".data "43000".data, Seg.fld "tbhits".data "0".data,
      Seg.fld "time".data "1".data, Seg.scr "cp".data "-656".data]
     (by decide) (by decide) (by decide) (by decide) (by decide) (by decide) (by decide)
     (Or.inl rfl) (by decide) (by decide) (by decide)
     (by rw [List.nil_append, List.nil_append])⟩

/-! ## Claim 3 -/

/-- Claim C3: in every call of Match.Move whose active side's BestMove
returns an evaluation of score kind mate, a positive mate value records the
active side's name as Winner, a negative one records the inactive side's
name, and a zero value leaves Winner unchanged (absent stays absent); in
all three cases Move reports that the match does not continue. -/
theorem claim3_mate_winner (o : EngineOracle) (m : Match) (bm : BestMove) (i : Info)
    (hlen : m.Moves.length ≠ MaxMoves)
    (ho : o (if m.Moves.length % 2 ≠ 0 then m.BlackEngine else m.WhiteEngine) m.Moves = .ok bm)
    (hinfo : bm.Info = some i) (hmate : i.Score.Eval = "mate") :
    ∃ m' : Match,
      (Match.Move o m).1 = .ok (false, m') ∧
      m'.Winner = (if 0 < i.Score.Value then (if m.Moves.length % 2 ≠ 0 then m.Black else m.White)
                   else if i.Score.Value < 0 then (if m.Moves.length % 2 ≠ 0 then m.White else m.Black)
                   else m.Winner) := by
  simp only [Match.Move, if_neg hlen, ho, hinfo]
  rw [if_pos hmate]
  rcases lt_trichotomy 0 i.Score.Value with hv | hv | hv
  · rw [if_pos hv]
    exact ⟨_, rfl, by simp [hv]⟩
  · have h1 : ¬ 0 < i.Score.Value := by omega
    have h2 : ¬ i.Score.Value < 0 := by omega
    rw [if_neg h1, if_neg h2]
    exact ⟨_, rfl, by simp [h1, h2]⟩
  · have h1 : ¬ 0 < i.Score.Value := by omega
    rw [if_neg h1, if_pos hv]
    exact ⟨_, rfl, by simp [h1, hv]⟩

/-- Witness for claim C3 at a concrete match state and oracle. -/
theorem claim3_witness :
    let m : Match := { White := "w", WhiteEngine := 1, Black := "b", BlackEngine := 2
                       Moves := [], Winner := "", WinnerEngine := none }
    let i : Info := { emptyInfo with Score := { Eval := "mate", Value := 3 } }
    let bm : BestMove := { Move := "e2e4", Ponder := "e7e5", Info := some i }
    let o : EngineOracle := fun _ _ => .ok bm
    ∃ m' : Match,
      (Match.Move o m).1 = .ok (false, m') ∧
      m'.Winner = (if 0 < i.Score.Value then (if m.Moves.length % 2 ≠ 0 then m.Black else m.White)
                   else if i.Score.Value < 0 then (if m.Moves.length % 2 ≠ 0 then m.White else m.Black)
                   else m.Winner) := by
  intro m i bm o
  exact claim3_mate_winner o m bm i (by decide) rfl rfl rfl

/-! ## Claim 4 -/

/-- Claim C4: below the move ceiling, the active side of Match.Move is
determined solely by the parity of the move-history length (even length
selects the white engine, odd the black engine), and the trace of engine
invocations consists exactly of SetPosition and BestMove on that engine:
the inactive side's engine is never driven. -/
theorem claim4_active_side_only (o : EngineOracle) (m : Match) (hlen : m.Moves.length < MaxMoves) :
    let active := if m.Moves.length % 2 = 0 then m.WhiteEngine else m.BlackEngine
    (Match.Move o m).2 = [EngineCall.setPosition active m.Moves, EngineCall.bestMove active] ∧
    ∀ c ∈ (Match.Move o m).2, c.engine = active := by
  intro active
  have hne : m.Moves.length ≠ MaxMoves := Nat.ne_of_lt hlen
  have hact : (if m.Moves.length % 2 ≠ 0 then m.BlackEngine else m.WhiteEngine) = active := by
    by_cases hp : m.Moves.length % 2 = 0 <;> simp [active, hp]
  have htrace : (Match.Move o m).2 =
      [EngineCall.setPosition active m.Moves, EngineCall.bestMove active] := by
    simp only [Match.Move, if_neg hne, hact]
    rcases ho2 : o active m.Moves with bm | e | e
    · simp only [ho2]
      rcases hbm : bm.Info with _ | i
      · simp only [hbm]
      · simp only [hbm]
        by_cases hm : i.Score.Eval = "mate"
        · rw [if_pos hm]
          rcases lt_trichotomy 0 i.Score.Value with hv | hv | hv
          · rw [if_pos hv]
          · rw [if_neg (by omega : ¬ 0 < i.Score.Value),
              if_neg (by omega : ¬ i.Score.Value < 0)]
          · rw [if_neg (by omega : ¬ 0 < i.Score.Value), if_pos hv]
        · rw [if_neg hm]
          by_cases hp : bm.Ponder = "(none)"
          · rw [if_neg (not_not_intro hp)]
          · rw [if_pos hp]
    · simp only [ho2]
    · simp only [ho2]
  refine ⟨htrace, ?_⟩
  intro c hc
  rw [htrace] at hc
  simp only [List.mem_cons, List.not_mem_nil, or_false] at hc
  rcases hc with h | h <;> (rw [h]; rfl)

/-- Witness for claim C4 at a concrete match state and oracle. -/
theorem claim4_witness :
    let m : Match := { White := "w", WhiteEngine := 1, Black := "b", BlackEngine := 2
                       Moves := ["e2e4"], Winner := "", WinnerEngine := none }
    let o : EngineOracle := fun _ _ => .err "boom"
    let active := if m.Moves.length % 2 = 0 then m.WhiteEngine else m.BlackEngine
    (Match.Move o m).2 = [EngineCall.setPosition active m.Moves, EngineCall.bestMove active] ∧
    ∀ c ∈ (Match.Move o m).2, c.engine = active := by
  intro m o
  exact claim4_active_side_only o m (by decide)

/-! ## Claim 8 -/

theorem move_winner_preserved (o : EngineOracle)
    (hnm : ∀ e ms bm, o e ms = .ok bm → ∀ i, bm.Info = some i → i.Score.Eval ≠ "mate")
    (m : Match) (c : Bool) (m' : Match) (h : (Match.Move o m).1 = .ok (c, m')) :
    m'.Winner = m.Winner := by
  by_cases hlen : m.Moves.length = MaxMoves
  · have key : (Match.Move o m).1 = .ok (false, m) := by
      simp only [Match.Move, if_pos hlen]
    rw [key] at h
    injection h with h2
    injection h2 with hc2 hm2
    rw [← hm2]
  · rcases ho : o (if m.Moves.length % 2 ≠ 0 then m.BlackEngine else m.WhiteEngine) m.Moves
      with bm | e | e
    · rcases hbm : bm.Info with _ | i
      · have key : (Match.Move o m).1 =
            .panic "runtime error: invalid memory address or nil pointer dereference" := by
          simp only [Match.Move, if_neg hlen, ho, hbm]
        rw [key] at h
        exact absurd h (by simp)
      · have hm : i.Score.Eval ≠ "mate" := hnm _ _ _ ho i hbm
        by_cases hp : bm.Ponder = "(none)"
        · have key : (Match.Move o m).1 =
              .ok (false, { m with Moves := m.Moves ++ [bm.Move] }) := by
            simp only [Match.Move, if_neg hlen, ho, hbm, if_neg hm,
              if_neg (not_not_intro hp)]
          rw [key] at h
          injection h with h2
          injection h2 with hc2 hm2
          rw [← hm2]
        · have key : (Match.Move o m).1 =
              .ok (true, { m with Moves := m.Moves ++ [bm.Move] }) := by
            simp only [Match.Move, if_neg hlen, ho, hbm, if_neg hm, if_pos hp]
          rw [key] at h
          injection h with h2
          injection h2 with hc2 hm2
          rw [← hm2]
    · have key : (Match.Move o m).1 = .err e := by
        simp only [Match.Move, if_neg hlen, ho]
      rw [key] at h
      exact absurd h (by simp)
    · have key : (Match.Move o m).1 = .panic e := by
        simp only [Match.Move, if_neg hlen, ho]
      rw [key] at h
      exact absurd h (by simp)

/-- Claim C8: a call of Match.Move at a history length equal to the move
ceiling returns continues false with no engine invocation and an unchanged
match state; and a run whose oracle never reports a mate score keeps the
winner absent whenever it started absent, so reaching the ceiling without a
mate leaves Winner empty. -/
theorem claim8_move_ceiling (o : EngineOracle) (m : Match) :
    (m.Moves.length = MaxMoves → Match.Move o m = (.ok (false, m), [])) ∧
    ((∀ e ms bm, o e ms = .ok bm → ∀ i, bm.Info = some i → i.Score.Eval ≠ "mate") →
      ∀ fuel (m0 : Match) (w : String) (m' : Match), m0.Winner = "" →
        Match.Run o fuel m0 = .ok (w, m') → w = "") := by
  constructor
  · intro hlen
    simp [Match.Move, hlen]
  · intro hnm fuel
    induction fuel with
    | zero =>
      intro m0 w m' h0 hr
      simp only [Match.Run] at hr
      cases hr
      exact h0
    | succ n ih =>
      intro m0 w m' h0 hr
      simp only [Match.Run] at hr
      split at hr
      · exact absurd hr (by simp)
      · exact absurd hr (by simp)
      · rename_i m1 heq
        have hw : m1.Winner = m0.Winner := move_winner_preserved o hnm m0 true m1 heq
        exact ih m1 w m' (hw.trans h0) hr
      · rename_i m1 heq
        have hw : m1.Winner = m0.Winner := move_winner_preserved o hnm m0 false m1 heq
        injection hr with hr2
        injection hr2 with hw2 hm2
        rw [← hw2, hw, h0]

/-- Witness for claim C8 at a concrete oracle and a state at the ceiling. -/
theorem claim8_witness :
    let o : EngineOracle := fun _ _ =>
      .ok { Move := "e2e4", Ponder := "(none)", Info := some emptyInfo }
    let m : Match := { White := "w", WhiteEngine := 1, Black := "b", BlackEngine := 2
                       Moves := List.replicate 500 "e2e4", Winner := "", WinnerEngine := none }
    (m.Moves.length = MaxMoves → Match.Move o m = (.ok (false, m), [])) ∧
    ((∀ e ms bm, o e ms = .ok bm → ∀ i, bm.Info = some i → i.Score.Eval ≠ "mate") →
      ∀ fuel (m0 : Match) (w : String) (m' : Match), m0.Winner = "" →
        Match.Run o fuel m0 = .ok (w, m') → w = "") := by
  intro o m
  exact claim8_move_ceiling o m

/-! ## Claim 5 -/

/-- Claim C5 (amended): an input line splitting into fewer than two
space-separated pieces makes ParseBestMove panic with an index-out-of-range
runtime error when reading the move token, rather than returning a
ParseError. -/
theorem claim5_short_line_panics (line : String) (h : (splitSp line.data).length < 2) :
    ParseBestMove line = .panic "runtime error: index out of range" := by
  have hne := splitSp_ne_nil line.data
  rcases hts : splitSp line.data with _ | ⟨a, ts⟩
  · exact absurd hts hne
  · rw [hts] at h
    simp only [List.length_cons] at h
    have hts0 : ts = [] := by
      cases ts
      · rfl
      · exact absurd h (by simp only [List.length_cons]; omega)
    subst hts0
    simp [ParseBestMove, hts, goIndex]

/-- Counterexample to claim C5 as stated: the empty line splits into one
piece and ParseBestMove panics on it instead of returning a ParseError. -/
theorem claim5_counterexample :
    ParseBestMove "" = .panic "runtime error: index out of range" := by rfl

/-- Witness for claim C5 at the empty line. -/
theorem claim5_witness :
    (splitSp "".data).length < 2 ∧
      ParseBestMove "" = .panic "runtime error: index out of range" :=
  ⟨by decide, claim5_short_line_panics "" (by decide)⟩

/-! ## Claim 6 -/

theorem parseBestMove_two (line : String) (a b : List Char)
    (hsp : splitSp line.data = [a, b]) :
    ParseBestMove line = .ok { Move := String.mk b, Ponder := "", Info := none } := by
  simp [ParseBestMove, hsp, goIndex]

theorem parseBestMove_three (line : String) (a b c : List Char)
    (hsp : splitSp line.data = [a, b, c]) :
    ParseBestMove line = .panic "runtime error: index out of range" := by
  simp [ParseBestMove, hsp, goIndex]

theorem parseBestMove_four (line : String) (a b c d : List Char)
    (hsp : splitSp line.data = [a, b, c, d]) :
    ParseBestMove line = .ok { Move := String.mk b, Ponder := String.mk d, Info := none } := by
  simp [ParseBestMove, hsp, goIndex]

/-- Claim C6 (amended): a terminal line of the two-token form bestmove X
yields move X with ponder absent; the four-token form bestmove X ponder Y
yields move X and ponder Y; and every line splitting into exactly two
pieces has ponder absent — but a line of exactly three pieces (such as one
with no token after the ponder keyword) panics on an out-of-range slice
index instead of leaving ponder absent. -/
theorem claim6_bestmove_forms (X Y : List Char)
    (hX : ∀ c ∈ X, c ≠ ' ') (hY : ∀ c ∈ Y, c ≠ ' ') :
    ParseBestMove (String.mk ("bestmove".data ++ ' ' :: X)) =
      .ok { Move := String.mk X, Ponder := "", Info := none } ∧
    ParseBestMove (String.mk ("bestmove".data ++ ' ' :: (X ++ ' ' :: ("ponder".data ++ ' ' :: Y)))) =
      .ok { Move := String.mk X, Ponder := String.mk Y, Info := none } ∧
    (∀ line : String, (splitSp line.data).length = 2 →
      ∃ mv, ParseBestMove line = .ok { Move := mv, Ponder := "", Info := none }) ∧
    (∀ line : String, (splitSp line.data).length = 3 →
      ParseBestMove line = .panic "runtime error: index out of range") := by
  have hbm : ∀ c ∈ "bestmove".data, c ≠ ' ' := by decide
  have hpo : ∀ c ∈ "ponder".data, c ≠ ' ' := by decide
  refine ⟨?_, ?_, ?_, ?_⟩
  · refine parseBestMove_two _ "bestmove".data X ?_
    rw [show (String.mk ("bestmove".data ++ ' ' :: X)).data =
        "bestmove".data ++ ' ' :: X from rfl, splitSp_append _ _ hbm, splitSp_spaceless X hX]
  · refine parseBestMove_four _ "bestmove".data X "ponder".data Y ?_
    rw [show (String.mk ("bestmove".data ++ ' ' ::
        (X ++ ' ' :: ("ponder".data ++ ' ' :: Y)))).data =
        "bestmove".data ++ ' ' :: (X ++ ' ' :: ("ponder".data ++ ' ' :: Y)) from rfl,
      splitSp_append _ _ hbm, splitSp_append _ _ hX, splitSp_append _ _ hpo,
      splitSp_spaceless Y hY]
  · intro line hlen
    rcases hts : splitSp line.data with _ | ⟨a, _ | ⟨b, _ | ⟨c, ts⟩⟩⟩ <;>
      rw [hts] at hlen <;> simp at hlen
    exact ⟨String.mk b, parseBestMove_two line a b hts⟩
  · intro line hlen
    rcases hts : splitSp line.data with _ | ⟨a, _ | ⟨b, _ | ⟨c, _ | ⟨d, ts⟩⟩⟩⟩ <;>
      rw [hts] at hlen <;> simp at hlen
    exact parseBestMove_three line a b c hts

/-- Counterexample to claim C6 as stated: the line bestmove d2d4 ponder has
no fourth whitespace token, yet ParseBestMove panics rather than returning
a result with ponder absent. -/
theorem claim6_counterexample :
    ParseBestMove "bestmove d2d4 ponder" = .panic "runtime error: index out of range" := by rfl

/-- Witness for claim C6 at the concrete moves d2d4 and a7a6. -/
theorem claim6_witness :
    ParseBestMove (String.mk ("bestmove".data ++ ' ' :: "d2d4".data)) =
      .ok { Move := String.mk "d2d4".data, Ponder := "", Info := none } ∧
    ParseBestMove (String.mk ("bestmove".data ++ ' ' ::
        ("d2d4".data ++ ' ' :: ("ponder".data ++ ' ' :: "a7a6".data)))) =
      .ok { Move := String.mk "d2d4".data, Ponder := String.mk "a7a6".data, Info := none } :=
  ⟨(claim6_bestmove_forms "d2d4".data "a7a6".data (by decide) (by decide)).1,
   (claim6_bestmove_forms "d2d4".data "a7a6".data (by decide) (by decide)).2.1⟩

/-! ## Claim 9 -/

/-- Claim C9 (amended): with random set, a positive range whose width
fits in a 64-bit machine integer, and range bounds representable in a
64-bit machine integer, every value the random source may yield puts the
Contempt entry of the computed parameter map at the decimal text of an
integer in the half-open range from randMin to randMax, and a
caller-supplied Contempt option still overrides the randomized value;
when the width randMax - randMin overflows, the machine subtraction
wraps negative and rand.Intn panics instead (see the counterexample). -/
theorem claim9_random_contempt (param : String → Option String) (randMin randMax draw : Int)
    (hminR : -2 ^ 63 ≤ randMin) (hmaxR : randMax < 2 ^ 63)
    (hr : randMin < randMax) (hno : randMax - randMin < 2 ^ 63)
    (h0 : 0 ≤ draw) (h1 : draw < randMax - randMin) :
    ∃ pm, engineParam param true randMin randMax draw = .ok pm ∧
      (param "Contempt" = none →
        pm "Contempt" = some (goItoa (draw + randMin)) ∧
        randMin ≤ draw + randMin ∧ draw + randMin < randMax) ∧
      (∀ v, param "Contempt" = some v → pm "Contempt" = some v) := by
  have hw1 : goWrap (randMax - randMin) = randMax - randMin :=
    goWrap_eq_self (by omega) (by omega)
  have hw2 : goWrap (draw + randMin) = draw + randMin :=
    goWrap_eq_self (by omega) (by omega)
  have hpos : ¬ goWrap (randMax - randMin) ≤ 0 := by
    rw [hw1]
    omega
  refine ⟨fun n => match param n with
    | some v => some v
    | none => if n = "Contempt" then some (goItoa (goWrap (draw + randMin)))
              else baseParamDefaults n,
    ?_, ?_, ?_⟩
  · simp [engineParam, randIntn, hpos]
  · intro hc
    exact ⟨by simp [hc, hw2], by omega, by omega⟩
  · intro v hv
    simp [hv]

/-- Counterexample to claim C9 as stated: at the machine-representable
range bounds randMin = -2 to the 63rd and randMax = 2 to the 63rd minus
one the range is positive, yet the machine subtraction randMax - randMin
wraps to -1 and rand.Intn panics, so no Contempt value is set at all. -/
theorem claim9_counterexample :
    (-2 ^ 63 : Int) < 2 ^ 63 - 1 ∧
    engineParam (fun _ => none) true (-2 ^ 63) (2 ^ 63 - 1) 0 =
      .panic "invalid argument to Intn" := by
  constructor
  · decide
  · have hle : goWrap 18446744073709551615 ≤ 0 := by decide
    simp [engineParam, randIntn, hle]

/-- Witness for claim C9 at a concrete empty option map and draw. -/
theorem claim9_witness :
    ∃ pm, engineParam (fun _ => none) true (-10) 10 3 = .ok pm ∧
      ((fun _ => none : String → Option String) "Contempt" = none →
        pm "Contempt" = some (goItoa (3 + -10)) ∧
        (-10 : Int) ≤ 3 + -10 ∧ (3 : Int) + -10 < 10) ∧
      (∀ v, (fun _ => none : String → Option String) "Contempt" = some v →
        pm "Contempt" = some v) :=
  claim9_random_contempt (fun _ => none) (-10) 10 3
    (by decide) (by decide) (by decide) (by decide) (by decide) (by decide)

/-! ## Claim 10 -/

/-- Claim C10 (amended): calling the parameter construction with random
set, randMax at most randMin, and a range whose machine subtraction does
not wrap (randMin - randMax at most 2 to the 63rd) panics inside
rand.Intn rather than surfacing any error value: the non-positive-range
condition is not reachable as a normal error result; when
randMin - randMax exceeds 2 to the 63rd the machine subtraction wraps
positive and the construction returns normally with no panic (see the
counterexample). -/
theorem claim10_nonpos_range_panics (param : String → Option String) (randMin randMax draw : Int)
    (h : randMax ≤ randMin) (hno : randMin - randMax ≤ 2 ^ 63) :
    engineParam param true randMin randMax draw = .panic "invalid argument to Intn" ∧
    ∀ e, engineParam param true randMin randMax draw ≠ .err e := by
  have hle : goWrap (randMax - randMin) ≤ 0 := by
    rw [goWrap_eq_self (by omega) (by omega)]
    omega
  constructor
  · simp [engineParam, randIntn, hle]
  · intro e
    simp [engineParam, randIntn, hle]

/-- Counterexample to claim C10 as stated: at randMin = 2 to the 63rd
minus one and randMax = -2 to the 63rd we have randMax at most randMin,
yet the machine subtraction randMax - randMin wraps to +1, rand.Intn
returns normally, and the construction succeeds with Contempt set —
no panic occurs. -/
theorem claim10_counterexample :
    (-2 ^ 63 : Int) ≤ 2 ^ 63 - 1 ∧
    ∃ pm, engineParam (fun _ => none) true (2 ^ 63 - 1) (-2 ^ 63) 0 = .ok pm ∧
      pm "Contempt" = some (goItoa (2 ^ 63 - 1)) := by
  refine ⟨by decide,
    fun n => if n = "Contempt" then some (goItoa (goWrap (0 + (2 ^ 63 - 1))))
             else baseParamDefaults n, ?_, ?_⟩
  · have hpos : ¬ goWrap (-18446744073709551615) ≤ 0 := by decide
    simp [engineParam, randIntn, hpos]
  · have h2 : goWrap 9223372036854775807 = 9223372036854775807 := by decide
    simp [h2]

/-- Witness for claim C10 at a concrete empty option map and equal range
bounds. -/
theorem claim10_witness :
    engineParam (fun _ => none) true 7 7 0 = .panic "invalid argument to Intn" ∧
    ∀ e, engineParam (fun _ => none) true 7 7 0 ≠ .err e :=
  claim10_nonpos_range_panics (fun _ => none) 7 7 0 (by decide) (by decide)

end Gostockfish
